import Mathlib

/-!
# pthread-mutex-hook: spinlock replacement for `pthread_mutex_*`

A shallow embedding of `src/pthread.cc`.  The mutex object is the record of
the fields of `pthread_mutex_t.__data` that the code touches.  The inline
assembly of `rte_spinlock_lock` is embedded instruction by instruction as a
small-step machine (`rte_spinlock_lock_step`); the sequential entry points
run that machine with a step budget, the concurrent model of
`src/thread_test.cc` interleaves it.

Machine integers: `int` fields are `Int`, `unsigned int __count` is a `Nat`
that wraps at `2 ^ 32`, `pthread_t` is a `Nat` below `2 ^ 64` and the
conversion `int id = pthread_self()` keeps the low 32 bits.
-/

namespace PthreadMutexHook

/-! ## Data model -/

/-- The fields of `pthread_mutex_t.__data` used by `pthread.cc`:
`int __lock`, `unsigned int __count`, `int __owner`, `int __kind`. -/
structure pthread_mutex_t where
  __lock : Int
  __count : Nat
  __owner : Int
  __kind : Int
deriving DecidableEq, Repr

/-- Range of the C types of the fields (`int` and `unsigned int`, 32 bits). -/
def WellFormed (m : pthread_mutex_t) : Prop :=
  (-(2 : Int) ^ 31 ≤ m.__lock ∧ m.__lock < 2 ^ 31) ∧
  m.__count < 2 ^ 32 ∧
  (-(2 : Int) ^ 31 ≤ m.__owner ∧ m.__owner < 2 ^ 31) ∧
  (-(2 : Int) ^ 31 ≤ m.__kind ∧ m.__kind < 2 ^ 31)

instance (m : pthread_mutex_t) : Decidable (WellFormed m) := by
  unfold WellFormed; infer_instance

/-- `EBUSY` of `<cerrno>` on Linux. -/
def EBUSY : Int := 16

/-- `#define PTHREAD_MUTEX_RECURSIVE_NP 1`. -/
def PTHREAD_MUTEX_RECURSIVE_NP : Int := 1

/-- The 32-bit two's complement bit pattern of an `int`. -/
def bits32 (z : Int) : Nat := (z % 2 ^ 32).toNat

/-- The `int` whose two's complement bit pattern is the low 32 bits of `n`. -/
def int_of_bits32 (n : Nat) : Int :=
  if n % 2 ^ 32 < 2 ^ 31 then ((n % 2 ^ 32 : Nat) : Int)
  else ((n % 2 ^ 32 : Nat) : Int) - 2 ^ 32

/-- The C operator `&` on two `int`s: bitwise and of the bit patterns. -/
def int_and (a b : Int) : Int := int_of_bits32 (bits32 a &&& bits32 b)

/-- `#define PTHREAD_MUTEX_TYPE(m) ((m)->__data.__kind & 127)`. -/
def PTHREAD_MUTEX_TYPE (m : pthread_mutex_t) : Int :=
  int_and m.__kind 127

/-- The conversion in `int id = pthread_self();`: a `pthread_t`
(`unsigned long`) is reduced to its low 32 bits, read as two's complement. -/
def int_of_pthread_t (self : Nat) : Int := int_of_bits32 self

/-- `x++` on an `unsigned int`. -/
def uint_incr (x : Nat) : Nat := (x + 1) % 2 ^ 32

/-- `--x` on an `unsigned int`. -/
def uint_decr (x : Nat) : Nat := ((2 ^ 32 - 1) + x) % 2 ^ 32

/-! ## Atomic lock primitive -/

/-- Program points of the assembly of `rte_spinlock_lock`: label `1:`
(the `xchg`), label `2:` (the `pause` / `cmpl` loop) and label `3:` (exit). -/
inductive SpinPc where
  | xchg
  | spin
  | done
deriving DecidableEq, Repr

/-- Thread-local part of `rte_spinlock_lock`: program point and the register
`lv` holding `lock_val`. -/
structure SpinReg where
  pc : SpinPc
  lv : Int
deriving DecidableEq, Repr

/-- One shared-memory access of `rte_spinlock_lock`, on the lock word.
At `1:` the `xchg` swaps the lock word with `lv`, then `test; jz 3f` leaves
when the value swapped out was zero and otherwise falls into `2:`.
At `2:` the `cmpl $0` reads the lock word; `jnz 2b` stays, else `jmp 1b`. -/
def rte_spinlock_lock_step (lock : Int) (r : SpinReg) : Int × SpinReg :=
  match r.pc with
  | SpinPc.xchg =>
      if lock = 0 then (r.lv, { pc := SpinPc.done, lv := lock })
      else (r.lv, { pc := SpinPc.spin, lv := lock })
  | SpinPc.spin =>
      if lock ≠ 0 then (lock, { r with pc := SpinPc.spin })
      else (lock, { r with pc := SpinPc.xchg })
  | SpinPc.done => (lock, r)

/-- Runs `rte_spinlock_lock_step` with no other thread touching the lock
word; `fuel` bounds the number of memory accesses.  `none`: still spinning. -/
def spin_run : Nat → Int → SpinReg → Option Int
  | 0, _, _ => none
  | fuel + 1, lock, r =>
      let p := rte_spinlock_lock_step lock r
      if p.2.pc = SpinPc.done then some p.1 else spin_run fuel p.1 p.2

/-- Sequential `rte_spinlock_lock`: `int lock_val = 1;` then the assembly
loop.  With `fuel = 1` the result is `some` exactly when the single `xchg`
found the lock free. -/
def rte_spinlock_lock (fuel : Nat) (sl : pthread_mutex_t) : Option pthread_mutex_t :=
  (spin_run fuel sl.__lock { pc := SpinPc.xchg, lv := 1 }).map
    (fun l => { sl with __lock := l })

/-- `rte_spinlock_unlock`: `xchg` of the lock word with `unlock_val = 0`. -/
def rte_spinlock_unlock (sl : pthread_mutex_t) : pthread_mutex_t :=
  { sl with __lock := 0 }

/-- `rte_spinlock_trylock`: one `xchg` of the lock word with `lockval = 1`;
returns `(lockval == 0)` for the value swapped out. -/
def rte_spinlock_trylock (sl : pthread_mutex_t) : pthread_mutex_t × Int :=
  ({ sl with __lock := 1 }, if sl.__lock = 0 then 1 else 0)

/-! ## Recursive lock wrapper -/

/-- `rte_spinlock_recursive_lock`; `self` is the value of `pthread_self()`. -/
def rte_spinlock_recursive_lock (fuel : Nat) (self : Nat) (slr : pthread_mutex_t) :
    Option pthread_mutex_t :=
  let id := int_of_pthread_t self
  if slr.__owner ≠ id then
    match rte_spinlock_lock fuel slr with
    | none => none
    | some s => some { s with __owner := id, __count := uint_incr s.__count }
  else
    some { slr with __count := uint_incr slr.__count }

/-- `rte_spinlock_recursive_unlock`. -/
def rte_spinlock_recursive_unlock (slr : pthread_mutex_t) : pthread_mutex_t :=
  let s := { slr with __count := uint_decr slr.__count }
  if s.__count = 0 then rte_spinlock_unlock { s with __owner := 0 } else s

/-- `rte_spinlock_recursive_trylock`; `self` is the value of `pthread_self()`. -/
def rte_spinlock_recursive_trylock (self : Nat) (slr : pthread_mutex_t) :
    pthread_mutex_t × Int :=
  let id := int_of_pthread_t self
  if slr.__owner ≠ id then
    let p := rte_spinlock_trylock slr
    if p.2 = 0 then (p.1, 0)
    else ({ p.1 with __owner := id, __count := uint_incr p.1.__count }, 1)
  else
    ({ slr with __count := uint_incr slr.__count }, 1)

/-! ## Dispatch / interposition layer -/

/-- `pthread_mutex_lock`. -/
def pthread_mutex_lock (fuel : Nat) (self : Nat) (mutex : pthread_mutex_t) :
    Option (pthread_mutex_t × Int) :=
  if PTHREAD_MUTEX_TYPE mutex = PTHREAD_MUTEX_RECURSIVE_NP then
    (rte_spinlock_recursive_lock fuel self mutex).map (fun s => (s, 0))
  else
    (rte_spinlock_lock fuel mutex).map (fun s => (s, 0))

/-- `__pthread_mutex_lock`. -/
def __pthread_mutex_lock (fuel : Nat) (self : Nat) (mutex : pthread_mutex_t) :
    Option (pthread_mutex_t × Int) :=
  if PTHREAD_MUTEX_TYPE mutex = PTHREAD_MUTEX_RECURSIVE_NP then
    (rte_spinlock_recursive_lock fuel self mutex).map (fun s => (s, 0))
  else
    (rte_spinlock_lock fuel mutex).map (fun s => (s, 0))

/-- `__pthread_mutex_cond_lock`. -/
def __pthread_mutex_cond_lock (fuel : Nat) (self : Nat) (mutex : pthread_mutex_t) :
    Option (pthread_mutex_t × Int) :=
  if PTHREAD_MUTEX_TYPE mutex = PTHREAD_MUTEX_RECURSIVE_NP then
    (rte_spinlock_recursive_lock fuel self mutex).map (fun s => (s, 0))
  else
    (rte_spinlock_lock fuel mutex).map (fun s => (s, 0))

/-- `pthread_mutex_trylock`. -/
def pthread_mutex_trylock (self : Nat) (mutex : pthread_mutex_t) :
    pthread_mutex_t × Int :=
  if PTHREAD_MUTEX_TYPE mutex = PTHREAD_MUTEX_RECURSIVE_NP then
    let p := rte_spinlock_recursive_trylock self mutex
    if p.2 = 0 then (p.1, EBUSY) else (p.1, 0)
  else
    let p := rte_spinlock_trylock mutex
    if p.2 = 0 then (p.1, EBUSY) else (p.1, 0)

/-- `pthread_mutex_unlock`. -/
def pthread_mutex_unlock (mutex : pthread_mutex_t) : pthread_mutex_t × Int :=
  if PTHREAD_MUTEX_TYPE mutex = PTHREAD_MUTEX_RECURSIVE_NP then
    (rte_spinlock_recursive_unlock mutex, 0)
  else
    (rte_spinlock_unlock mutex, 0)

/-- The mutex `m` with its type tag replaced by `k`. -/
def with_kind (m : pthread_mutex_t) (k : Int) : pthread_mutex_t :=
  { m with __kind := k }

/-- How `pthread_mutex_trylock` reports the result `ret` of the spinlock
try-lock it calls: `if (ret == 0) return EBUSY; ... return 0;`. -/
def trylock_code (ret : Int) : Int := if ret = 0 then EBUSY else 0

/-- The given number of consecutive `pthread_mutex_lock` calls by the thread
`self`, each with step budget `fuel`; `none` when one of them does not
return within its budget. -/
def lock_n (fuel self : Nat) : Nat → pthread_mutex_t → Option pthread_mutex_t
  | 0, m => some m
  | n + 1, m =>
      match pthread_mutex_lock fuel self m with
      | none => none
      | some p => lock_n fuel self n p.1

/-- The given number of consecutive `pthread_mutex_unlock` calls. -/
def unlock_n : Nat → pthread_mutex_t → pthread_mutex_t
  | 0, m => m
  | n + 1, m => unlock_n n (pthread_mutex_unlock m).1

/-- A zero-initialised mutex with type tag `kind`. -/
def zero_mutex (kind : Int) : pthread_mutex_t := ⟨0, 0, 0, kind⟩

/-! ## Use of one mutex through the entry points -/

/-- The operations on a mutex: `pthread_mutex_lock`, `pthread_mutex_trylock`
and `pthread_mutex_unlock`. -/
inductive MutexOp where
  | lock
  | trylock
  | unlock
deriving DecidableEq, Repr

/-- A call of an entry point: `thread` is the caller's `pthread_self()`,
`fuel` the step budget of a `lock` call. -/
structure Call where
  thread : Nat
  op : MutexOp
  fuel : Nat
deriving DecidableEq, Repr

/-- A mutex with the history needed to speak about its correct use: `held`
lists the threads of the acquisitions not yet released (most recent first),
`taker` is the thread that most recently took `__count` from `0` to `1`. -/
structure Usage where
  mutex : pthread_mutex_t
  held : List Nat
  taker : Option Nat
deriving DecidableEq, Repr

/-- Bookkeeping of a successful acquisition by thread `t` that left the
mutex in state `after`. -/
def Usage.acquired (u : Usage) (t : Nat) (after : pthread_mutex_t) : Usage :=
  { mutex := after,
    held := t :: u.held,
    taker := if u.mutex.__count = 0 ∧ after.__count = 1 then some t else u.taker }

/-- One completed call on a correctly used mutex.  A `lock` call that does
not return within its budget gives no next state; an `unlock` is only made
by a thread that holds an acquisition it has not yet released. -/
def use_step (u : Usage) (c : Call) : Option Usage :=
  match c.op with
  | MutexOp.lock =>
      match pthread_mutex_lock c.fuel c.thread u.mutex with
      | none => none
      | some p => some (u.acquired c.thread p.1)
  | MutexOp.trylock =>
      let p := pthread_mutex_trylock c.thread u.mutex
      if p.2 = 0 then some (u.acquired c.thread p.1) else some { u with mutex := p.1 }
  | MutexOp.unlock =>
      if c.thread ∈ u.held then
        some { u with mutex := (pthread_mutex_unlock u.mutex).1, held := u.held.erase c.thread }
      else none

/-- States reachable from the zero-initialised mutex of type tag `kind` by
completed calls; `adm c u` restricts the calls `c` and the states `u` they
may lead to. -/
inductive Reachable (adm : Call → Usage → Prop) (kind : Int) : Usage → Prop where
  | init : Reachable adm kind ⟨zero_mutex kind, [], none⟩
  | step {u v : Usage} (c : Call) :
      Reachable adm kind u → use_step u c = some v → adm c v → Reachable adm kind v

/-- No restriction on calls. -/
def any_call (_ : Call) (_ : Usage) : Prop := True

/-- Calls by threads with a non-zero owner key that keep fewer than `2 ^ 32`
acquisitions outstanding. -/
def within_counter (c : Call) (v : Usage) : Prop :=
  int_of_pthread_t c.thread ≠ 0 ∧ v.held.length < 2 ^ 32

/-- The invariants of a recursive mutex as the spec states them; the owner
is compared with the thread identity itself. -/
def stated_invariants (u : Usage) : Prop :=
  (u.mutex.__owner ≠ 0 ↔ 0 < u.mutex.__count) ∧
  (u.mutex.__lock = 1 ↔ 0 < u.mutex.__count) ∧
  (∀ t, u.taker = some t → u.mutex.__owner = (t : Int))

/-- The invariants of a recursive mutex as the code keeps them: the owner is
compared, while the mutex is held, with the key of the thread that most
recently took the count from `0` to `1`. -/
def kept_invariants (u : Usage) : Prop :=
  (u.mutex.__owner ≠ 0 ↔ 0 < u.mutex.__count) ∧
  (u.mutex.__lock = 1 ↔ 0 < u.mutex.__count) ∧
  (0 < u.mutex.__count → ∃ t, u.taker = some t ∧ u.mutex.__owner = int_of_pthread_t t)

/-- The bookkeeping invariant behind `kept_invariants`: the nest count is the
number of outstanding acquisitions, below `2 ^ 32`; a mutex without
outstanding acquisitions has lock word and owner `0`; otherwise the lock
word is `1` and the owner is the non-zero key of the recorded taker. -/
def usage_inv (kind : Int) (u : Usage) : Prop :=
  u.mutex.__kind = kind ∧
  u.mutex.__count = u.held.length ∧
  u.held.length < 2 ^ 32 ∧
  (u.held = [] → u.mutex.__lock = 0 ∧ u.mutex.__owner = 0) ∧
  (u.held ≠ [] → u.mutex.__lock = 1 ∧ u.mutex.__owner ≠ 0 ∧
    ∃ t, u.taker = some t ∧ u.mutex.__owner = int_of_pthread_t t)

/-! ## Concurrent workers on one mutex (`src/thread_test.cc`)

Threads interleave at the level of single accesses to shared memory; an
`xchg` is one access. -/

/-- Program points of `worker`: entering `pthread_mutex_lock`, inside the
assembly of `rte_spinlock_lock`, the read and the write of `var ++`,
entering `pthread_mutex_unlock`, and after the loop. -/
inductive WorkerPc where
  | call_lock
  | in_lock
  | load
  | store
  | call_unlock
  | done
deriving DecidableEq, Repr

/-- Thread-local state of a `worker`: program point, loop counter
`unsigned i`, the registers of `rte_spinlock_lock`, and the register that
holds the value read from `var`. -/
structure Worker where
  pc : WorkerPc
  i : Nat
  reg : SpinReg
  tmp : Nat
deriving DecidableEq, Repr

/-- Shared memory (`mutex`, `uint64_t var`) and the workers by index. -/
structure System where
  mutex : pthread_mutex_t
  var : Nat
  workers : Nat → Worker

/-- The loop test `i < K` of `worker`, with `K` iterations (`1000` in the
test). -/
def loop_head (K i : Nat) : WorkerPc :=
  if i < K then WorkerPc.call_lock else WorkerPc.done

/-- A worker at its start: `unsigned i = 0`. -/
def worker_init (K : Nat) : Worker :=
  { pc := loop_head K 0, i := 0, reg := { pc := SpinPc.xchg, lv := 1 }, tmp := 0 }

/-- One step of a worker on the shared `mutex` and `var`.  The entry points
read the type tag; the recursive path is not part of this model (`none`). -/
def worker_step (K : Nat) (m : pthread_mutex_t) (var : Nat) (w : Worker) :
    Option (pthread_mutex_t × Nat × Worker) :=
  match w.pc with
  | WorkerPc.call_lock =>
      if PTHREAD_MUTEX_TYPE m = PTHREAD_MUTEX_RECURSIVE_NP then none
      else some (m, var, { w with pc := WorkerPc.in_lock, reg := { pc := SpinPc.xchg, lv := 1 } })
  | WorkerPc.in_lock =>
      let p := rte_spinlock_lock_step m.__lock w.reg
      some ({ m with __lock := p.1 }, var,
        { w with pc := if p.2.pc = SpinPc.done then WorkerPc.load else WorkerPc.in_lock,
                 reg := p.2 })
  | WorkerPc.load => some (m, var, { w with pc := WorkerPc.store, tmp := var })
  | WorkerPc.store => some (m, (w.tmp + 1) % 2 ^ 64, { w with pc := WorkerPc.call_unlock })
  | WorkerPc.call_unlock =>
      if PTHREAD_MUTEX_TYPE m = PTHREAD_MUTEX_RECURSIVE_NP then none
      else some (rte_spinlock_unlock m, var,
        { w with i := (w.i + 1) % 2 ^ 32, pc := loop_head K ((w.i + 1) % 2 ^ 32) })
  | WorkerPc.done => some (m, var, w)

/-- Thread `t` of the `N` workers takes one step. -/
def sys_step (K N : Nat) (s : System) (t : Nat) : Option System :=
  if t < N then
    match worker_step K s.mutex s.var (s.workers t) with
    | none => none
    | some r => some { mutex := r.1, var := r.2.1, workers := Function.update s.workers t r.2.2 }
  else none

/-- Runs an interleaving, given as the list of the threads that step. -/
def run_schedule (K N : Nat) : List Nat → System → Option System
  | [], s => some s
  | t :: ts, s =>
      match sys_step K N s t with
      | none => none
      | some s1 => run_schedule K N ts s1

/-- The system after `pthread_create` of all workers. -/
def sys_init (K : Nat) (m : pthread_mutex_t) (var : Nat) : System :=
  { mutex := m, var := var, workers := fun _ => worker_init K }

/-- A worker is inside the critical section: `pthread_mutex_lock` has
returned and the exchange of `pthread_mutex_unlock` has not happened. -/
def in_cs (w : Worker) : Prop :=
  w.pc = WorkerPc.load ∨ w.pc = WorkerPc.store ∨ w.pc = WorkerPc.call_unlock

instance (w : Worker) : Decidable (in_cs w) := by
  unfold in_cs; infer_instance

/-- Mutual exclusion among the first `N` workers. -/
def mutual_exclusion (N : Nat) (s : System) : Prop :=
  ∀ a, a < N → ∀ b, b < N → in_cs (s.workers a) → in_cs (s.workers b) → a = b

instance (N : Nat) (s : System) : Decidable (mutual_exclusion N s) := by
  unfold mutual_exclusion; infer_instance

/-- All of the first `N` workers have left their loop. -/
def all_done (N : Nat) (s : System) : Prop :=
  ∀ a, a < N → (s.workers a).pc = WorkerPc.done

instance (N : Nat) (s : System) : Decidable (all_done N s) := by
  unfold all_done; infer_instance

/-- Increments of `var` completed by a worker. -/
def contrib (w : Worker) : Nat :=
  w.i + (if w.pc = WorkerPc.call_unlock then 1 else 0)

/-- Local invariant of a worker with respect to shared memory. -/
def worker_ok (K : Nat) (m : pthread_mutex_t) (var : Nat) (w : Worker) : Prop :=
  (w.pc ≠ WorkerPc.done → w.i < K) ∧
  (w.pc = WorkerPc.done → w.i = K) ∧
  (w.pc = WorkerPc.in_lock → w.reg.lv ≠ 0 ∧ w.reg.pc ≠ SpinPc.done) ∧
  (in_cs w → m.__lock ≠ 0) ∧
  (w.pc = WorkerPc.store → w.tmp = var)

/-- Invariant of the system of `N` workers started with `var = v0`. -/
def sys_inv (K N v0 : Nat) (s : System) : Prop :=
  PTHREAD_MUTEX_TYPE s.mutex ≠ PTHREAD_MUTEX_RECURSIVE_NP ∧
  (∀ a, a < N → worker_ok K s.mutex s.var (s.workers a)) ∧
  mutual_exclusion N s ∧
  s.var = (v0 + ∑ a in Finset.range N, contrib (s.workers a)) % 2 ^ 64

/-- The repetitions of `main`: each round creates `N` workers, runs them
under the given interleaving and joins them; `none` when the interleaving
of a round does not bring every worker to its end. -/
def run_rounds (K N : Nat) : List (List Nat) → pthread_mutex_t × Nat → Option (pthread_mutex_t × Nat)
  | [], r => some r
  | sched :: rest, r =>
      match run_schedule K N sched (sys_init K r.1 r.2) with
      | none => none
      | some s => if all_done N s then run_rounds K N rest (s.mutex, s.var) else none

/-! ## The spin loop step by step -/

/-- The lock word and the registers of `rte_spinlock_lock` after the given
number of its memory accesses, when no other thread writes the lock word:
the first access is the `xchg`, each further one is a `cmpl` of the loop or
a new `xchg`. -/
def spin_steps : Nat → Int × SpinReg → Int × SpinReg
  | 0, p => p
  | n + 1, p => spin_steps n (rte_spinlock_lock_step p.1 p.2)

/-- The mutex and the registers after the given number of memory accesses
of a call of `rte_spinlock_lock`, which starts with `lock_val = 1`. -/
def rte_spinlock_lock_after (n : Nat) (sl : pthread_mutex_t) : pthread_mutex_t × SpinReg :=
  ({ sl with __lock := (spin_steps n (sl.__lock, { pc := SpinPc.xchg, lv := 1 })).1 },
   (spin_steps n (sl.__lock, { pc := SpinPc.xchg, lv := 1 })).2)

/-- Thread `t` takes the mutex `m`, by `pthread_mutex_lock` (which returns
within `fuel + 1` memory accesses) and also by `pthread_mutex_trylock`
(which succeeds), and the `pthread_mutex_unlock` that follows gives back
`m`. -/
def round_trip (fuel t : Nat) (m : pthread_mutex_t) : Prop :=
  (∃ m1, pthread_mutex_lock (fuel + 1) t m = some (m1, 0) ∧ (pthread_mutex_unlock m1).1 = m) ∧
  (pthread_mutex_trylock t m).2 = 0 ∧
  (pthread_mutex_unlock (pthread_mutex_trylock t m).1).1 = m

/-- What an entry point may change when it takes `m` to `m1`: never the
type tag, hence never the routing, and on a normal-type mutex neither the
owner nor the nest count. -/
def frame_ok (m m1 : pthread_mutex_t) : Prop :=
  m1.__kind = m.__kind ∧
  PTHREAD_MUTEX_TYPE m1 = PTHREAD_MUTEX_TYPE m ∧
  (PTHREAD_MUTEX_TYPE m ≠ PTHREAD_MUTEX_RECURSIVE_NP →
    m1.__owner = m.__owner ∧ m1.__count = m.__count)

/-- A call of `rte_spinlock_lock` while other threads write the lock word.
The list has one entry per memory access of the call: `some v` when the
lock word has been overwritten with `v` since the previous access, `none`
when it has not.  The call makes no access after it has reached its exit. -/
def spin_with_env : List (Option Int) → Int × SpinReg → Int × SpinReg
  | [], p => p
  | e :: es, p =>
      if p.2.pc = SpinPc.done then p
      else spin_with_env es (rte_spinlock_lock_step (e.getD p.1) p.2)

/-! ## Basic facts -/

theorem bits32_127 : bits32 127 = 2 ^ 7 - 1 := by decide

theorem int_and_127 (k : Int) : int_and k 127 = k % 128 := by
  unfold int_and
  rw [bits32_127, Nat.and_pow_two_sub_one_eq_mod]
  unfold int_of_bits32 bits32
  have h1 : (0 : Int) ≤ k % 2 ^ 32 := Int.emod_nonneg _ (by norm_num)
  have h2 : ((k % 2 ^ 32).toNat : Int) = k % 2 ^ 32 := Int.toNat_of_nonneg h1
  have h3 : (k % 2 ^ 32).toNat % 2 ^ 7 % 2 ^ 32 < 2 ^ 31 := by omega
  rw [if_pos h3]
  omega

theorem PTHREAD_MUTEX_TYPE_eq_emod (m : pthread_mutex_t) :
    PTHREAD_MUTEX_TYPE m = m.__kind % 128 := by
  unfold PTHREAD_MUTEX_TYPE
  exact int_and_127 _

theorem low7_bits_emod (a b : Int)
    (h : ∀ i : Nat, i < 7 → (bits32 a).testBit i = (bits32 b).testBit i) :
    a % 128 = b % 128 := by
  have hn : bits32 a % 2 ^ 7 = bits32 b % 2 ^ 7 := by
    apply Nat.eq_of_testBit_eq
    intro i
    rw [Nat.testBit_mod_two_pow, Nat.testBit_mod_two_pow]
    by_cases hi : i < 7
    · simp [hi, h i hi]
    · simp [hi]
  unfold bits32 at hn
  have ha : ((a % 2 ^ 32).toNat : Int) = a % 2 ^ 32 :=
    Int.toNat_of_nonneg (Int.emod_nonneg _ (by norm_num))
  have hb : ((b % 2 ^ 32).toNat : Int) = b % 2 ^ 32 :=
    Int.toNat_of_nonneg (Int.emod_nonneg _ (by norm_num))
  omega

theorem type_with_kind (m : pthread_mutex_t) (k : Int) (h : k % 128 = m.__kind % 128) :
    PTHREAD_MUTEX_TYPE (with_kind m k) = PTHREAD_MUTEX_TYPE m := by
  rw [PTHREAD_MUTEX_TYPE_eq_emod, PTHREAD_MUTEX_TYPE_eq_emod]
  exact h

theorem lock_with_kind (fuel : Nat) (m : pthread_mutex_t) (k : Int) :
    rte_spinlock_lock fuel (with_kind m k)
      = (rte_spinlock_lock fuel m).map (fun s => with_kind s k) := by
  unfold rte_spinlock_lock with_kind
  cases spin_run fuel m.__lock { pc := SpinPc.xchg, lv := 1 } <;> rfl

theorem recursive_lock_with_kind (fuel self : Nat) (m : pthread_mutex_t) (k : Int) :
    rte_spinlock_recursive_lock fuel self (with_kind m k)
      = (rte_spinlock_recursive_lock fuel self m).map (fun s => with_kind s k) := by
  unfold rte_spinlock_recursive_lock
  rw [lock_with_kind]
  by_cases ho : m.__owner = int_of_pthread_t self
  · simp [with_kind, ho]
  · cases hl : rte_spinlock_lock fuel m <;> simp [with_kind, ho]

theorem trylock_with_kind (m : pthread_mutex_t) (k : Int) :
    rte_spinlock_trylock (with_kind m k)
      = (with_kind (rte_spinlock_trylock m).1 k, (rte_spinlock_trylock m).2) := rfl

theorem recursive_trylock_with_kind (self : Nat) (m : pthread_mutex_t) (k : Int) :
    rte_spinlock_recursive_trylock self (with_kind m k)
      = (with_kind (rte_spinlock_recursive_trylock self m).1 k,
         (rte_spinlock_recursive_trylock self m).2) := by
  unfold rte_spinlock_recursive_trylock rte_spinlock_trylock
  by_cases ho : m.__owner = int_of_pthread_t self
  · simp [with_kind, ho]
  · by_cases hl : m.__lock = 0 <;> simp [with_kind, ho, hl]

theorem unlock_with_kind (m : pthread_mutex_t) (k : Int) :
    rte_spinlock_unlock (with_kind m k) = with_kind (rte_spinlock_unlock m) k := rfl

theorem recursive_unlock_with_kind (m : pthread_mutex_t) (k : Int) :
    rte_spinlock_recursive_unlock (with_kind m k)
      = with_kind (rte_spinlock_recursive_unlock m) k := by
  unfold rte_spinlock_recursive_unlock rte_spinlock_unlock
  by_cases hc : uint_decr m.__count = 0 <;> simp [with_kind, hc]

/-! ## Type dispatch -/

/-- C1: every entry point routes on `__kind & 127`.  When the masked tag is
`1` the resulting state is that of the recursive algorithm, otherwise that of
the plain one; `lock` and `unlock` add the code `0`, `trylock` reports the
algorithm's result through `trylock_code`.  A mutex whose tag agrees with
that of `m` on the low seven bits is handled like `m`, and the tags `0`, `2`,
`3` are not the recursive one. -/
theorem type_dispatch (fuel self : Nat) (m : pthread_mutex_t) :
    (int_and m.__kind 127 = 1 →
      pthread_mutex_lock fuel self m
          = (rte_spinlock_recursive_lock fuel self m).map (fun s => (s, 0)) ∧
      pthread_mutex_trylock self m
          = ((rte_spinlock_recursive_trylock self m).1,
             trylock_code (rte_spinlock_recursive_trylock self m).2) ∧
      pthread_mutex_unlock m = (rte_spinlock_recursive_unlock m, 0)) ∧
    (int_and m.__kind 127 ≠ 1 →
      pthread_mutex_lock fuel self m
          = (rte_spinlock_lock fuel m).map (fun s => (s, 0)) ∧
      pthread_mutex_trylock self m
          = ((rte_spinlock_trylock m).1, trylock_code (rte_spinlock_trylock m).2) ∧
      pthread_mutex_unlock m = (rte_spinlock_unlock m, 0)) ∧
    (∀ k : Int, (∀ i : Nat, i < 7 → (bits32 k).testBit i = (bits32 m.__kind).testBit i) →
      pthread_mutex_lock fuel self (with_kind m k)
          = (pthread_mutex_lock fuel self m).map (fun p => (with_kind p.1 k, p.2)) ∧
      pthread_mutex_trylock self (with_kind m k)
          = (with_kind (pthread_mutex_trylock self m).1 k, (pthread_mutex_trylock self m).2) ∧
      pthread_mutex_unlock (with_kind m k)
          = (with_kind (pthread_mutex_unlock m).1 k, (pthread_mutex_unlock m).2)) ∧
    (m.__kind = 0 ∨ m.__kind = 2 ∨ m.__kind = 3 → int_and m.__kind 127 ≠ 1) := by
  refine ⟨?_, ?_, ?_, ?_⟩
  · intro h
    have ht : PTHREAD_MUTEX_TYPE m = PTHREAD_MUTEX_RECURSIVE_NP := h
    refine ⟨?_, ?_, ?_⟩
    · unfold pthread_mutex_lock; rw [if_pos ht]
    · unfold pthread_mutex_trylock trylock_code; rw [if_pos ht]
      by_cases hr : (rte_spinlock_recursive_trylock self m).2 = 0 <;> simp [hr]
    · unfold pthread_mutex_unlock; rw [if_pos ht]
  · intro h
    have ht : ¬ PTHREAD_MUTEX_TYPE m = PTHREAD_MUTEX_RECURSIVE_NP := h
    refine ⟨?_, ?_, ?_⟩
    · unfold pthread_mutex_lock; rw [if_neg ht]
    · unfold pthread_mutex_trylock trylock_code; rw [if_neg ht]
      by_cases hr : (rte_spinlock_trylock m).2 = 0 <;> simp [hr]
    · unfold pthread_mutex_unlock; rw [if_neg ht]
  · intro k hk
    have hty := type_with_kind m k (low7_bits_emod k m.__kind hk)
    refine ⟨?_, ?_, ?_⟩
    · unfold pthread_mutex_lock
      rw [hty, recursive_lock_with_kind, lock_with_kind]
      by_cases ht : PTHREAD_MUTEX_TYPE m = PTHREAD_MUTEX_RECURSIVE_NP
      · rw [if_pos ht, if_pos ht]
        cases rte_spinlock_recursive_lock fuel self m <;> rfl
      · rw [if_neg ht, if_neg ht]
        cases rte_spinlock_lock fuel m <;> rfl
    · unfold pthread_mutex_trylock
      rw [hty, recursive_trylock_with_kind, trylock_with_kind]
      by_cases ht : PTHREAD_MUTEX_TYPE m = PTHREAD_MUTEX_RECURSIVE_NP
      · rw [if_pos ht, if_pos ht]
        by_cases hr : (rte_spinlock_recursive_trylock self m).2 = 0 <;> simp [hr]
      · rw [if_neg ht, if_neg ht]
        by_cases hr : (rte_spinlock_trylock m).2 = 0 <;> simp [hr]
    · unfold pthread_mutex_unlock
      rw [hty, recursive_unlock_with_kind, unlock_with_kind]
      by_cases ht : PTHREAD_MUTEX_TYPE m = PTHREAD_MUTEX_RECURSIVE_NP
      · rw [if_pos ht, if_pos ht]
      · rw [if_neg ht, if_neg ht]
  · intro h
    rw [int_and_127]
    rcases h with h | h | h <;> rw [h] <;> decide

/-- Witness for C1: the tag `129` is recursive, the tag `2` is plain, `129`
agrees with `1` on the low seven bits, and `2` is one of the plain tags. -/
theorem type_dispatch_witness :
    int_and 129 127 = 1 ∧ int_and 2 127 ≠ 1 ∧
    pthread_mutex_lock 1 5 ⟨0, 0, 0, 129⟩ = some (⟨1, 1, 5, 129⟩, 0) ∧
    pthread_mutex_unlock ⟨1, 1, 5, 2⟩ = (⟨0, 1, 5, 2⟩, 0) ∧
    pthread_mutex_trylock 5 (with_kind ⟨0, 0, 0, 1⟩ 129)
      = (with_kind (pthread_mutex_trylock 5 ⟨0, 0, 0, 1⟩).1 129,
         (pthread_mutex_trylock 5 ⟨0, 0, 0, 1⟩).2) ∧
    int_and 2 127 ≠ 1 :=
  ⟨by decide, by decide,
   ((type_dispatch 1 5 ⟨0, 0, 0, 129⟩).1 (by decide)).1.trans (by decide),
   ((type_dispatch 1 5 ⟨1, 1, 5, 2⟩).2.1 (by decide)).2.2.trans (by decide),
   ((type_dispatch 1 5 ⟨0, 0, 0, 1⟩).2.2.1 129 (by decide)).2.1,
   (type_dispatch 1 5 ⟨0, 0, 0, 2⟩).2.2.2 (Or.inr (Or.inl rfl))⟩

/-! ## Try-acquire -/

/-- C2: `rte_spinlock_trylock` on a free lock (lock word `0`) succeeds and
leaves the lock word equal to `1`, the other fields as they were; on a held
lock (lock word `1`) it fails and the whole mutex state is unchanged. -/
theorem trylock_free_or_held (sl : pthread_mutex_t) :
    (sl.__lock = 0 →
      (rte_spinlock_trylock sl).2 = 1 ∧
      (rte_spinlock_trylock sl).1 = { sl with __lock := 1 }) ∧
    (sl.__lock = 1 →
      (rte_spinlock_trylock sl).2 = 0 ∧
      (rte_spinlock_trylock sl).1 = sl ∧
      (rte_spinlock_trylock sl).1.__lock = 1 ∧
      (rte_spinlock_trylock sl).1.__owner = sl.__owner ∧
      (rte_spinlock_trylock sl).1.__count = sl.__count ∧
      (rte_spinlock_trylock sl).1.__kind = sl.__kind) := by
  constructor
  · intro h
    simp [rte_spinlock_trylock, h]
  · intro h
    have hs : ({ sl with __lock := 1 } : pthread_mutex_t) = sl := by
      cases sl; simp_all
    simp [rte_spinlock_trylock, h, hs]

/-- Witness for C2: a free and a held normal mutex. -/
theorem trylock_free_or_held_witness :
    rte_spinlock_trylock ⟨0, 0, 0, 0⟩ = (⟨1, 0, 0, 0⟩, 1) ∧
    rte_spinlock_trylock ⟨1, 3, 7, 0⟩ = (⟨1, 3, 7, 0⟩, 0) :=
  ⟨Prod.ext ((trylock_free_or_held ⟨0, 0, 0, 0⟩).1 rfl).2
      ((trylock_free_or_held ⟨0, 0, 0, 0⟩).1 rfl).1,
   Prod.ext ((trylock_free_or_held ⟨1, 3, 7, 0⟩).2 rfl).2.1
      ((trylock_free_or_held ⟨1, 3, 7, 0⟩).2 rfl).1⟩

/-- C4: `pthread_mutex_trylock` returns `0` or `EBUSY` (which is not `0`).
On a normal mutex it returns `EBUSY` exactly when the lock word was non-zero
before the call; on a recursive mutex exactly when the caller's key differs
from the recorded owner and the lock word was non-zero.  Otherwise `0`. -/
theorem trylock_return_code (self : Nat) (m : pthread_mutex_t) :
    ((pthread_mutex_trylock self m).2 = 0 ∨ (pthread_mutex_trylock self m).2 = EBUSY) ∧
    EBUSY ≠ 0 ∧
    (PTHREAD_MUTEX_TYPE m ≠ PTHREAD_MUTEX_RECURSIVE_NP →
      ((pthread_mutex_trylock self m).2 = EBUSY ↔ m.__lock ≠ 0)) ∧
    (PTHREAD_MUTEX_TYPE m = PTHREAD_MUTEX_RECURSIVE_NP →
      ((pthread_mutex_trylock self m).2 = EBUSY ↔
        (m.__owner ≠ int_of_pthread_t self ∧ m.__lock ≠ 0))) ∧
    ((pthread_mutex_trylock self m).2 ≠ EBUSY → (pthread_mutex_trylock self m).2 = 0) := by
  have hE : EBUSY ≠ 0 := by decide
  by_cases ht : PTHREAD_MUTEX_TYPE m = PTHREAD_MUTEX_RECURSIVE_NP
  · by_cases ho : m.__owner = int_of_pthread_t self
    · have hr : (pthread_mutex_trylock self m).2 = 0 := by
        simp [pthread_mutex_trylock, rte_spinlock_recursive_trylock, ht, ho]
      rw [hr]
      exact ⟨Or.inl rfl, hE, fun h => absurd ht h,
        fun _ => ⟨fun h => absurd h.symm hE, fun h => absurd ho h.1⟩, fun _ => rfl⟩
    · by_cases hl : m.__lock = 0
      · have hr : (pthread_mutex_trylock self m).2 = 0 := by
          simp [pthread_mutex_trylock, rte_spinlock_recursive_trylock,
            rte_spinlock_trylock, ht, ho, hl]
        rw [hr]
        exact ⟨Or.inl rfl, hE, fun h => absurd ht h,
          fun _ => ⟨fun h => absurd h.symm hE, fun h => absurd hl h.2⟩, fun _ => rfl⟩
      · have hr : (pthread_mutex_trylock self m).2 = EBUSY := by
          simp [pthread_mutex_trylock, rte_spinlock_recursive_trylock,
            rte_spinlock_trylock, ht, ho, hl]
        rw [hr]
        exact ⟨Or.inr rfl, hE, fun h => absurd ht h,
          fun _ => ⟨fun _ => ⟨ho, hl⟩, fun _ => rfl⟩, fun h => absurd rfl h⟩
  · by_cases hl : m.__lock = 0
    · have hr : (pthread_mutex_trylock self m).2 = 0 := by
        simp [pthread_mutex_trylock, rte_spinlock_trylock, ht, hl]
      rw [hr]
      exact ⟨Or.inl rfl, hE, fun _ => ⟨fun h => absurd h.symm hE, fun h => absurd hl h⟩,
        fun h => absurd h ht, fun _ => rfl⟩
    · have hr : (pthread_mutex_trylock self m).2 = EBUSY := by
        simp [pthread_mutex_trylock, rte_spinlock_trylock, ht, hl]
      rw [hr]
      exact ⟨Or.inr rfl, hE, fun _ => ⟨fun _ => hl, fun _ => rfl⟩,
        fun h => absurd h ht, fun h => absurd rfl h⟩

/-- Witness for C4: a held normal mutex and a recursive mutex held by another
thread give `EBUSY`; the owner of a recursive mutex gets `0`. -/
theorem trylock_return_code_witness :
    (pthread_mutex_trylock 5 ⟨1, 0, 0, 0⟩).2 = EBUSY ∧
    (pthread_mutex_trylock 5 ⟨1, 1, 6, 1⟩).2 = EBUSY ∧
    (pthread_mutex_trylock 6 ⟨1, 1, 6, 1⟩).2 = 0 :=
  ⟨((trylock_return_code 5 ⟨1, 0, 0, 0⟩).2.2.1 (by decide)).2 (by decide),
   ((trylock_return_code 5 ⟨1, 1, 6, 1⟩).2.2.2.1 (by decide)).2 (by decide),
   (trylock_return_code 6 ⟨1, 1, 6, 1⟩).2.2.2.2 (by decide)⟩

/-! ## Recursive try-acquire -/

/-- C5 as stated fails at the largest nest count: the owner's try-lock on a
recursive mutex with `__count = 4294967295` succeeds and leaves the count at
`0`, not at `4294967296`. -/
theorem recursive_trylock_count_wraps :
    WellFormed ⟨1, 4294967295, 5, 1⟩ ∧
    (⟨1, 4294967295, 5, 1⟩ : pthread_mutex_t).__owner = int_of_pthread_t 5 ∧
    rte_spinlock_recursive_trylock 5 ⟨1, 4294967295, 5, 1⟩ = (⟨1, 0, 5, 1⟩, 1) ∧
    (rte_spinlock_recursive_trylock 5 ⟨1, 4294967295, 5, 1⟩).1.__count ≠ 4294967295 + 1 := by
  decide

/-- C5, amended: with `id` the caller's key `(int) pthread_self()`.
If the owner differs from `id` and the lock word is `1`, the call returns `0`
and the mutex is unchanged (for any non-zero lock word it returns `0` and
leaves count and owner unchanged).  If the owner differs and the lock word
is `0`, the lock word becomes `1`, the owner becomes `id`, the count is
incremented modulo `2 ^ 32` and `1` is returned.  If the owner is `id`, `1`
is returned and only the count changes, incremented modulo `2 ^ 32`.  The
increment is exactly `+ 1` unless the count is `2 ^ 32 - 1`. -/
theorem recursive_trylock_cases (self : Nat) (slr : pthread_mutex_t) :
    (slr.__owner ≠ int_of_pthread_t self → slr.__lock = 1 →
      rte_spinlock_recursive_trylock self slr = (slr, 0)) ∧
    (slr.__owner ≠ int_of_pthread_t self → slr.__lock ≠ 0 →
      (rte_spinlock_recursive_trylock self slr).2 = 0 ∧
      (rte_spinlock_recursive_trylock self slr).1.__count = slr.__count ∧
      (rte_spinlock_recursive_trylock self slr).1.__owner = slr.__owner) ∧
    (slr.__owner ≠ int_of_pthread_t self → slr.__lock = 0 →
      rte_spinlock_recursive_trylock self slr
        = ({ slr with __lock := 1, __owner := int_of_pthread_t self,
                      __count := (slr.__count + 1) % 2 ^ 32 }, 1)) ∧
    (slr.__owner = int_of_pthread_t self →
      rte_spinlock_recursive_trylock self slr
        = ({ slr with __count := (slr.__count + 1) % 2 ^ 32 }, 1)) ∧
    (slr.__count < 2 ^ 32 - 1 → (slr.__count + 1) % 2 ^ 32 = slr.__count + 1) := by
  refine ⟨?_, ?_, ?_, ?_, ?_⟩
  · intro ho hl
    have hs : ({ slr with __lock := 1 } : pthread_mutex_t) = slr := by
      cases slr; simp_all
    simp [rte_spinlock_recursive_trylock, rte_spinlock_trylock, ho, hl, hs]
  · intro ho hl
    simp [rte_spinlock_recursive_trylock, rte_spinlock_trylock, ho, hl]
  · intro ho hl
    simp [rte_spinlock_recursive_trylock, rte_spinlock_trylock, ho, hl, uint_incr]
  · intro ho
    simp [rte_spinlock_recursive_trylock, ho, uint_incr]
  · intro hc
    exact Nat.mod_eq_of_lt (by omega)

/-- Witness for C5 (amended): the three cases at concrete mutexes. -/
theorem recursive_trylock_cases_witness :
    rte_spinlock_recursive_trylock 5 ⟨1, 2, 6, 1⟩ = (⟨1, 2, 6, 1⟩, 0) ∧
    rte_spinlock_recursive_trylock 5 ⟨0, 0, 0, 1⟩ = (⟨1, 1, 5, 1⟩, 1) ∧
    rte_spinlock_recursive_trylock 6 ⟨1, 2, 6, 1⟩ = (⟨1, 3, 6, 1⟩, 1) ∧
    (2 + 1) % 2 ^ 32 = 2 + 1 :=
  ⟨(recursive_trylock_cases 5 ⟨1, 2, 6, 1⟩).1 (by decide) rfl,
   ((recursive_trylock_cases 5 ⟨0, 0, 0, 1⟩).2.2.1 (by decide) rfl).trans (by decide),
   ((recursive_trylock_cases 6 ⟨1, 2, 6, 1⟩).2.2.2.1 (by decide)).trans (by decide),
   (recursive_trylock_cases 6 ⟨1, 2, 6, 1⟩).2.2.2.2 (by decide)⟩

/-! ## The additional lock entry points -/

/-- C6: `__pthread_mutex_cond_lock` and `__pthread_mutex_lock` give, for
every mutex state, caller and step budget, the same outcome (resulting state
and return code, or no return) as `pthread_mutex_lock`. -/
theorem lock_entry_points_agree (fuel self : Nat) (m : pthread_mutex_t) :
    __pthread_mutex_cond_lock fuel self m = pthread_mutex_lock fuel self m ∧
    __pthread_mutex_lock fuel self m = pthread_mutex_lock fuel self m := by
  unfold __pthread_mutex_cond_lock __pthread_mutex_lock pthread_mutex_lock
  exact ⟨rfl, rfl⟩

/-! ## The sequential behaviour of `rte_spinlock_lock` -/

theorem spin_run_spinning (fuel : Nat) (lock lv : Int) (h : lock ≠ 0) :
    spin_run fuel lock { pc := SpinPc.spin, lv := lv } = none := by
  induction fuel with
  | zero => rfl
  | succ n ih =>
    unfold spin_run
    simp only [rte_spinlock_lock_step, if_pos h]
    simpa using ih

theorem rte_spinlock_lock_zero (sl : pthread_mutex_t) : rte_spinlock_lock 0 sl = none := rfl

theorem rte_spinlock_lock_succ (fuel : Nat) (sl : pthread_mutex_t) :
    rte_spinlock_lock (fuel + 1) sl
      = if sl.__lock = 0 then some { sl with __lock := 1 } else none := by
  unfold rte_spinlock_lock spin_run
  by_cases h : sl.__lock = 0
  · simp [rte_spinlock_lock_step, h]
  · simp only [rte_spinlock_lock_step, if_neg h]
    have := spin_run_spinning fuel 1 sl.__lock (by decide)
    simp [this]

/-! ## Return codes of lock and unlock -/

/-- C8: whenever `pthread_mutex_lock` returns, its result is `0`, and
`pthread_mutex_unlock` returns `0` for every mutex; `pthread_mutex_lock`
does return (after a single exchange) on every mutex whose lock word is
free. -/
theorem lock_unlock_report_success (fuel self : Nat) (m : pthread_mutex_t) :
    (∀ p, pthread_mutex_lock fuel self m = some p → p.2 = 0) ∧
    (pthread_mutex_unlock m).2 = 0 ∧
    (m.__lock = 0 → ∃ s, pthread_mutex_lock (fuel + 1) self m = some (s, 0)) := by
  refine ⟨?_, ?_, ?_⟩
  · intro p hp
    unfold pthread_mutex_lock at hp
    by_cases ht : PTHREAD_MUTEX_TYPE m = PTHREAD_MUTEX_RECURSIVE_NP
    · rw [if_pos ht] at hp
      cases hr : rte_spinlock_recursive_lock fuel self m with
      | none => rw [hr] at hp; cases hp
      | some s => rw [hr] at hp; cases hp; rfl
    · rw [if_neg ht] at hp
      cases hr : rte_spinlock_lock fuel m with
      | none => rw [hr] at hp; cases hp
      | some s => rw [hr] at hp; cases hp; rfl
  · unfold pthread_mutex_unlock
    by_cases ht : PTHREAD_MUTEX_TYPE m = PTHREAD_MUTEX_RECURSIVE_NP
    · rw [if_pos ht]
    · rw [if_neg ht]
  · intro hl
    unfold pthread_mutex_lock rte_spinlock_recursive_lock
    rw [rte_spinlock_lock_succ, if_pos hl]
    by_cases ht : PTHREAD_MUTEX_TYPE m = PTHREAD_MUTEX_RECURSIVE_NP
    · by_cases ho : m.__owner = int_of_pthread_t self
      · simp [ht, ho]
      · simp [ht, ho]
    · simp [ht]

/-- Witness for C8: the lock call on a free normal mutex returns, with `0`. -/
theorem lock_unlock_report_success_witness :
    pthread_mutex_lock 1 5 ⟨0, 0, 0, 0⟩ = some (⟨1, 0, 0, 0⟩, 0) ∧
    ((⟨1, 0, 0, 0⟩, 0) : pthread_mutex_t × Int).2 = 0 ∧
    ∃ s, pthread_mutex_lock (0 + 1) 5 ⟨0, 0, 0, 1⟩ = some (s, 0) :=
  ⟨by decide,
   (lock_unlock_report_success 1 5 ⟨0, 0, 0, 0⟩).1 (⟨1, 0, 0, 0⟩, 0) (by decide),
   (lock_unlock_report_success 0 5 ⟨0, 0, 0, 1⟩).2.2 rfl⟩

/-! ## Release -/

/-- C10: `rte_spinlock_unlock` sets the lock word to `0` whatever the prior
state and leaves owner, nest count and type tag as they were; a second
release changes nothing.  On a normal mutex `pthread_mutex_unlock` is this
release, with return code `0`. -/
theorem release_frame (sl : pthread_mutex_t) :
    (rte_spinlock_unlock sl).__lock = 0 ∧
    (rte_spinlock_unlock sl).__owner = sl.__owner ∧
    (rte_spinlock_unlock sl).__count = sl.__count ∧
    (rte_spinlock_unlock sl).__kind = sl.__kind ∧
    rte_spinlock_unlock (rte_spinlock_unlock sl) = rte_spinlock_unlock sl ∧
    (PTHREAD_MUTEX_TYPE sl ≠ PTHREAD_MUTEX_RECURSIVE_NP →
      pthread_mutex_unlock sl = (rte_spinlock_unlock sl, 0) ∧
      pthread_mutex_unlock (pthread_mutex_unlock sl).1 = pthread_mutex_unlock sl) := by
  refine ⟨rfl, rfl, rfl, rfl, rfl, ?_⟩
  intro ht
  have h1 : pthread_mutex_unlock sl = (rte_spinlock_unlock sl, 0) := by
    unfold pthread_mutex_unlock; rw [if_neg ht]
  have ht2 : PTHREAD_MUTEX_TYPE (rte_spinlock_unlock sl) ≠ PTHREAD_MUTEX_RECURSIVE_NP := ht
  refine ⟨h1, ?_⟩
  rw [h1]
  unfold pthread_mutex_unlock
  rw [if_neg ht2]
  rfl

/-- Witness for C10: release of a held normal mutex through
`pthread_mutex_unlock`, once and twice. -/
theorem release_frame_witness :
    pthread_mutex_unlock ⟨1, 3, 7, 0⟩ = (⟨0, 3, 7, 0⟩, 0) ∧
    pthread_mutex_unlock (pthread_mutex_unlock ⟨1, 3, 7, 0⟩).1
      = pthread_mutex_unlock ⟨1, 3, 7, 0⟩ :=
  ⟨((release_frame ⟨1, 3, 7, 0⟩).2.2.2.2.2 (by decide)).1.trans (by decide),
   ((release_frame ⟨1, 3, 7, 0⟩).2.2.2.2.2 (by decide)).2⟩

/-! ## Reentrancy -/

theorem lock_by_owner (fuel t : Nat) (l : Int) (c : Nat) (k : Int)
    (hk : int_and k 127 = 1) :
    pthread_mutex_lock fuel t ⟨l, c, int_of_pthread_t t, k⟩
      = some (⟨l, uint_incr c, int_of_pthread_t t, k⟩, 0) := by
  have ht : PTHREAD_MUTEX_TYPE ⟨l, c, int_of_pthread_t t, k⟩ = PTHREAD_MUTEX_RECURSIVE_NP := hk
  unfold pthread_mutex_lock
  rw [if_pos ht]
  simp [rte_spinlock_recursive_lock]

theorem lock_free_recursive (fuel t : Nat) (c : Nat) (o k : Int)
    (hk : int_and k 127 = 1) (ho : o ≠ int_of_pthread_t t) :
    pthread_mutex_lock (fuel + 1) t ⟨0, c, o, k⟩
      = some (⟨1, uint_incr c, int_of_pthread_t t, k⟩, 0) := by
  have ht : PTHREAD_MUTEX_TYPE ⟨0, c, o, k⟩ = PTHREAD_MUTEX_RECURSIVE_NP := hk
  unfold pthread_mutex_lock
  rw [if_pos ht]
  unfold rte_spinlock_recursive_lock
  rw [rte_spinlock_lock_succ]
  simp [ho]

theorem lock_n_by_owner (fuel t : Nat) (l k : Int) (hk : int_and k 127 = 1) :
    ∀ (n c : Nat), c < 2 ^ 32 →
      lock_n fuel t n ⟨l, c, int_of_pthread_t t, k⟩
        = some ⟨l, (c + n) % 2 ^ 32, int_of_pthread_t t, k⟩ := by
  intro n
  induction n with
  | zero =>
    intro c hc
    show some _ = some _
    rw [Nat.add_zero, Nat.mod_eq_of_lt hc]
  | succ n ih =>
    intro c hc
    unfold lock_n
    rw [lock_by_owner fuel t l c k hk]
    simp only
    have hlt : uint_incr c < 2 ^ 32 := Nat.mod_lt _ (by norm_num)
    rw [ih (uint_incr c) hlt]
    have : (uint_incr c + n) % 2 ^ 32 = (c + (n + 1)) % 2 ^ 32 := by
      unfold uint_incr; omega
    rw [this]

theorem lock_n_from_zero (fuel t n : Nat) (k : Int) (hk : int_and k 127 = 1)
    (ht : int_of_pthread_t t ≠ 0) :
    lock_n (fuel + 1) t (n + 1) (zero_mutex k)
      = some ⟨1, (n + 1) % 2 ^ 32, int_of_pthread_t t, k⟩ := by
  unfold lock_n zero_mutex
  rw [lock_free_recursive fuel t 0 0 k hk (fun h => ht h.symm)]
  simp only
  have h1 : uint_incr 0 = 1 := by decide
  rw [h1, lock_n_by_owner (fuel + 1) t 1 k hk n 1 (by norm_num)]
  have : (1 + n) % 2 ^ 32 = (n + 1) % 2 ^ 32 := by omega
  rw [this]

theorem unlock_recursive_keep (l : Int) (c : Nat) (o k : Int)
    (hk : int_and k 127 = 1) (hc : uint_decr c ≠ 0) :
    pthread_mutex_unlock ⟨l, c, o, k⟩ = (⟨l, uint_decr c, o, k⟩, 0) := by
  have ht : PTHREAD_MUTEX_TYPE ⟨l, c, o, k⟩ = PTHREAD_MUTEX_RECURSIVE_NP := hk
  unfold pthread_mutex_unlock
  rw [if_pos ht]
  simp [rte_spinlock_recursive_unlock, hc]

theorem unlock_recursive_last (l : Int) (c : Nat) (o k : Int)
    (hk : int_and k 127 = 1) (hc : uint_decr c = 0) :
    pthread_mutex_unlock ⟨l, c, o, k⟩ = (⟨0, 0, 0, k⟩, 0) := by
  have ht : PTHREAD_MUTEX_TYPE ⟨l, c, o, k⟩ = PTHREAD_MUTEX_RECURSIVE_NP := hk
  unfold pthread_mutex_unlock
  rw [if_pos ht]
  simp [rte_spinlock_recursive_unlock, rte_spinlock_unlock, hc]

theorem unlock_n_succ_last (n : Nat) :
    ∀ m : pthread_mutex_t, unlock_n (n + 1) m = (pthread_mutex_unlock (unlock_n n m)).1 := by
  induction n with
  | zero => intro m; rfl
  | succ n ih =>
    intro m
    show unlock_n (n + 1) (pthread_mutex_unlock m).1 = _
    rw [ih]
    rfl

theorem unlock_n_held (l o k : Int) (hk : int_and k 127 = 1) :
    ∀ (j d : Nat), j < d → d ≤ 2 ^ 32 →
      unlock_n j ⟨l, d % 2 ^ 32, o, k⟩ = ⟨l, (d - j) % 2 ^ 32, o, k⟩ := by
  intro j
  induction j with
  | zero => intro d _ _; rfl
  | succ j ih =>
    intro d hj hd
    have hne : uint_decr (d % 2 ^ 32) ≠ 0 := by unfold uint_decr; omega
    have heq : uint_decr (d % 2 ^ 32) = (d - 1) % 2 ^ 32 := by unfold uint_decr; omega
    unfold unlock_n
    rw [unlock_recursive_keep l _ o k hk hne, heq]
    simp only
    rw [ih (d - 1) (by omega) (by omega)]
    have : d - 1 - j = d - (j + 1) := by omega
    rw [this]

theorem unlock_n_all (l o k : Int) (hk : int_and k 127 = 1) (d : Nat)
    (h1 : 1 ≤ d) (h2 : d ≤ 2 ^ 32) :
    unlock_n d ⟨l, d % 2 ^ 32, o, k⟩ = ⟨0, 0, 0, k⟩ := by
  obtain ⟨e, rfl⟩ : ∃ e, d = e + 1 := ⟨d - 1, by omega⟩
  rw [unlock_n_succ_last, unlock_n_held l o k hk e (e + 1) (by omega) h2]
  have hc : uint_decr ((e + 1 - e) % 2 ^ 32) = 0 := by
    have : e + 1 - e = 1 := by omega
    rw [this]; decide
  rw [unlock_recursive_last l _ o k hk hc]

/-- C3 as stated fails in two ways.  Depth `2 ^ 32 + 1`: the 32-bit nest
count has wrapped to `1`, so the first unlock already frees the lock word.
Thread identity `2 ^ 32`: its key is `0`, the value of a free owner field,
so no lock call takes the lock word and it is `0` after the first of two
unlocks. -/
theorem reentrancy_fails_beyond_counter_or_zero_key :
    (lock_n 1 1 (2 ^ 32 + 1) (zero_mutex 1) = some ⟨1, 1, 1, 1⟩ ∧
      1 ≤ 2 ^ 32 + 1 - 1 ∧
      (unlock_n 1 ⟨1, 1, 1, 1⟩).__lock ≠ 1) ∧
    (lock_n 1 (2 ^ 32) 2 (zero_mutex 1) = some ⟨0, 2, 0, 1⟩ ∧
      1 ≤ 2 - 1 ∧
      (unlock_n 1 ⟨0, 2, 0, 1⟩).__lock ≠ 1) := by
  refine ⟨⟨?_, by norm_num, by decide⟩, by decide, by decide, by decide⟩
  have h := lock_n_from_zero 0 1 (2 ^ 32) 1 (by decide) (by decide)
  have h1 : int_of_pthread_t 1 = 1 := by decide
  have h2 : (2 ^ 32 + 1) % 2 ^ 32 = 1 := by norm_num
  rw [h1, h2] at h
  exact h

/-- C3, amended: for a thread whose key `(int) pthread_self()` is non-zero
and a depth `1 ≤ D ≤ 2 ^ 32`, starting from a zero-initialised recursive
mutex, `D` consecutive lock calls all return within a single memory access;
only the first finds an owner different from the caller (and so performs the
underlying acquire); the lock word is `1` after each of the first `D - 1`
unlocks, and after the `D`-th unlock lock word, owner and count are `0`. -/
theorem reentrancy (t D : Nat) (kind : Int) (hk : int_and kind 127 = 1)
    (ht : int_of_pthread_t t ≠ 0) (hD1 : 1 ≤ D) (hD2 : D ≤ 2 ^ 32) :
    ∃ mD, lock_n 1 t D (zero_mutex kind) = some mD ∧
      (zero_mutex kind).__owner ≠ int_of_pthread_t t ∧
      (∀ j mj, 1 ≤ j → j < D → lock_n 1 t j (zero_mutex kind) = some mj →
        mj.__owner = int_of_pthread_t t) ∧
      (∀ j, j < D → (unlock_n j mD).__lock = 1) ∧
      unlock_n D mD = zero_mutex kind := by
  obtain ⟨e, rfl⟩ : ∃ e, D = e + 1 := ⟨D - 1, by omega⟩
  refine ⟨⟨1, (e + 1) % 2 ^ 32, int_of_pthread_t t, kind⟩,
    lock_n_from_zero 0 t e kind hk ht, fun h => ht h.symm, ?_, ?_, ?_⟩
  · intro j mj hj1 _ hmj
    obtain ⟨i, rfl⟩ : ∃ i, j = i + 1 := ⟨j - 1, by omega⟩
    rw [lock_n_from_zero 0 t i kind hk ht] at hmj
    cases hmj
    rfl
  · intro j hj
    rw [unlock_n_held 1 _ kind hk j (e + 1) hj hD2]
  · exact unlock_n_all 1 _ kind hk (e + 1) hD1 hD2

/-- Witness for C3 (amended): thread `5`, depth `3`. -/
theorem reentrancy_witness :
    ∃ mD, lock_n 1 5 3 (zero_mutex 1) = some mD ∧
      (zero_mutex 1).__owner ≠ int_of_pthread_t 5 ∧
      (∀ j mj, 1 ≤ j → j < 3 → lock_n 1 5 j (zero_mutex 1) = some mj →
        mj.__owner = int_of_pthread_t 5) ∧
      (∀ j, j < 3 → (unlock_n j mD).__lock = 1) ∧
      unlock_n 3 mD = zero_mutex 1 :=
  reentrancy 5 3 1 (by decide) (by decide) (by decide) (by decide)

/-! ## Invariants of a recursive mutex -/

theorem recursive_lock_some (fuel t : Nat) (m s : pthread_mutex_t)
    (h : rte_spinlock_recursive_lock fuel t m = some s) :
    (m.__owner = int_of_pthread_t t ∧ s = { m with __count := uint_incr m.__count }) ∨
    (m.__owner ≠ int_of_pthread_t t ∧ m.__lock = 0 ∧
      s = { m with __lock := 1, __owner := int_of_pthread_t t,
                   __count := uint_incr m.__count }) := by
  unfold rte_spinlock_recursive_lock at h
  by_cases ho : m.__owner = int_of_pthread_t t
  · left
    have hn : ¬ (m.__owner ≠ int_of_pthread_t t) := fun h' => h' ho
    simp only [if_neg hn, Option.some.injEq] at h
    exact ⟨ho, h.symm⟩
  · right
    cases fuel with
    | zero => simp [ho, rte_spinlock_lock_zero] at h
    | succ n =>
      rw [rte_spinlock_lock_succ] at h
      by_cases hl : m.__lock = 0
      · simp [ho, hl] at h
        exact ⟨ho, hl, h.symm⟩
      · simp [ho, hl] at h

theorem recursive_trylock_eq (t : Nat) (m : pthread_mutex_t) :
    rte_spinlock_recursive_trylock t m =
      if m.__owner = int_of_pthread_t t then
        ({ m with __count := uint_incr m.__count }, 1)
      else if m.__lock = 0 then
        ({ m with __lock := 1, __owner := int_of_pthread_t t,
                  __count := uint_incr m.__count }, 1)
      else ({ m with __lock := 1 }, 0) := by
  unfold rte_spinlock_recursive_trylock rte_spinlock_trylock
  by_cases ho : m.__owner = int_of_pthread_t t
  · simp [ho]
  · by_cases hl : m.__lock = 0 <;> simp [ho, hl]

theorem usage_inv_acquired (kind : Int) (u : Usage) (t : Nat) (s : pthread_mutex_t)
    (hu : usage_inv kind u) (ht : int_of_pthread_t t ≠ 0) (hlen : u.held.length + 1 < 2 ^ 32)
    (hs : (u.mutex.__owner = int_of_pthread_t t ∧
            s = { u.mutex with __count := uint_incr u.mutex.__count }) ∨
          (u.mutex.__owner ≠ int_of_pthread_t t ∧ u.mutex.__lock = 0 ∧
            s = { u.mutex with __lock := 1, __owner := int_of_pthread_t t,
                               __count := uint_incr u.mutex.__count })) :
    usage_inv kind (u.acquired t s) := by
  obtain ⟨hkind, hcount, _, hfree, hheld⟩ := hu
  have hinc : uint_incr u.mutex.__count = u.held.length + 1 := by
    rw [hcount]; exact Nat.mod_eq_of_lt hlen
  rcases hs with ⟨ho, rfl⟩ | ⟨ho, hl, rfl⟩
  · have hne : u.held ≠ [] := by
      intro he
      exact ht (ho ▸ (hfree he).2)
    obtain ⟨hl1, ho1, x, hx, hox⟩ := hheld hne
    have hpos : u.mutex.__count ≠ 0 := by
      rw [hcount]
      exact fun h => hne (List.length_eq_zero.mp h)
    refine ⟨hkind, ?_, ?_, ?_, ?_⟩
    · simpa [Usage.acquired] using hinc
    · simpa [Usage.acquired] using hlen
    · intro he; simp [Usage.acquired] at he
    · intro _
      refine ⟨hl1, ho1, x, ?_, hox⟩
      simp [Usage.acquired, hpos, hx]
  · have he : u.held = [] := by
      by_contra hne
      have := (hheld hne).1
      rw [hl] at this
      exact absurd this (by decide)
    have hz : u.mutex.__count = 0 := by rw [hcount, he]; rfl
    have h1 : uint_incr u.mutex.__count = 1 := by rw [hz]; rfl
    refine ⟨hkind, ?_, ?_, ?_, ?_⟩
    · simpa [Usage.acquired] using hinc
    · simpa [Usage.acquired] using hlen
    · intro he2; simp [Usage.acquired] at he2
    · intro _
      refine ⟨rfl, ht, t, ?_, rfl⟩
      have h0 : uint_incr 0 = 1 := rfl
      simp [Usage.acquired, hz, h0]

theorem usage_inv_step (kind : Int) (hk : int_and kind 127 = 1) (u v : Usage) (c : Call)
    (hu : usage_inv kind u) (hs : use_step u c = some v) (ha : within_counter c v) :
    usage_inv kind v := by
  have hty : PTHREAD_MUTEX_TYPE u.mutex = PTHREAD_MUTEX_RECURSIVE_NP := by
    unfold PTHREAD_MUTEX_TYPE; rw [hu.1]; exact hk
  obtain ⟨hkey, hlen⟩ := ha
  unfold use_step at hs
  cases hop : c.op with
  | lock =>
    rw [hop] at hs
    simp only at hs
    cases hp : pthread_mutex_lock c.fuel c.thread u.mutex with
    | none => rw [hp] at hs; cases hs
    | some p =>
      rw [hp] at hs
      simp only [Option.some.injEq] at hs
      subst hs
      unfold pthread_mutex_lock at hp
      rw [if_pos hty] at hp
      cases hr : rte_spinlock_recursive_lock c.fuel c.thread u.mutex with
      | none => rw [hr] at hp; cases hp
      | some s =>
        rw [hr] at hp
        simp only [Option.map_some', Option.some.injEq] at hp
        subst hp
        have hlen2 : u.held.length + 1 < 2 ^ 32 := by
          simpa [Usage.acquired] using hlen
        exact usage_inv_acquired kind u c.thread s hu hkey hlen2
          (recursive_lock_some c.fuel c.thread u.mutex s hr)
  | trylock =>
    rw [hop] at hs
    simp only at hs
    have hp : pthread_mutex_trylock c.thread u.mutex =
        ((rte_spinlock_recursive_trylock c.thread u.mutex).1,
          trylock_code (rte_spinlock_recursive_trylock c.thread u.mutex).2) := by
      unfold pthread_mutex_trylock trylock_code
      rw [if_pos hty]
      by_cases hr : (rte_spinlock_recursive_trylock c.thread u.mutex).2 = 0 <;> simp [hr]
    rw [hp, recursive_trylock_eq] at hs
    by_cases ho : u.mutex.__owner = int_of_pthread_t c.thread
    · simp only [if_pos ho, trylock_code] at hs
      simp only [one_ne_zero, if_false, if_true, Option.some.injEq] at hs
      subst hs
      have hlen2 : u.held.length + 1 < 2 ^ 32 := by
        simpa [Usage.acquired] using hlen
      exact usage_inv_acquired kind u c.thread _ hu hkey hlen2 (Or.inl ⟨ho, rfl⟩)
    · by_cases hl : u.mutex.__lock = 0
      · simp only [if_neg ho, if_pos hl, trylock_code] at hs
        simp only [one_ne_zero, if_false, if_true, Option.some.injEq] at hs
        subst hs
        have hlen2 : u.held.length + 1 < 2 ^ 32 := by
          simpa [Usage.acquired] using hlen
        exact usage_inv_acquired kind u c.thread _ hu hkey hlen2 (Or.inr ⟨ho, hl, rfl⟩)
      · simp only [if_neg ho, if_neg hl, trylock_code] at hs
        have hE : EBUSY ≠ 0 := by decide
        simp only [if_true, hE, if_false, Option.some.injEq] at hs
        subst hs
        obtain ⟨hkind, hcount, hlt, hfree, hheld⟩ := hu
        have hne : u.held ≠ [] := fun he => hl (hfree he).1
        refine ⟨hkind, hcount, hlt, fun he => absurd he hne, fun _ => ?_⟩
        exact ⟨rfl, (hheld hne).2⟩
  | unlock =>
    rw [hop] at hs
    simp only at hs
    by_cases hmem : c.thread ∈ u.held
    · rw [if_pos hmem] at hs
      simp only [Option.some.injEq] at hs
      subst hs
      obtain ⟨hkind, hcount, hlt, hfree, hheld⟩ := hu
      have hne : u.held ≠ [] := List.ne_nil_of_mem hmem
      have hpos : 0 < u.held.length := List.length_pos.mpr hne
      have hlen_erase : (u.held.erase c.thread).length = u.held.length - 1 :=
        List.length_erase_of_mem hmem
      have hdec : uint_decr u.mutex.__count = u.held.length - 1 := by
        rw [hcount]; unfold uint_decr; omega
      have hun : pthread_mutex_unlock u.mutex = (rte_spinlock_recursive_unlock u.mutex, 0) := by
        unfold pthread_mutex_unlock; rw [if_pos hty]
      rw [hun]
      unfold rte_spinlock_recursive_unlock rte_spinlock_unlock
      by_cases hz : u.held.length - 1 = 0
      · have he : u.held.erase c.thread = [] :=
          List.length_eq_zero.mp (by rw [hlen_erase, hz])
        have hd0 : uint_decr u.mutex.__count = 0 := by rw [hdec, hz]
        refine ⟨?_, ?_, ?_, ?_, ?_⟩
        · simpa [hd0] using hkind
        · simp [hd0, he]
        · simp [he]
        · intro _; simp [hd0]
        · intro h; exact absurd he h
      · have hne2 : u.held.erase c.thread ≠ [] := by
          intro he
          apply hz
          rw [← hlen_erase, he]; rfl
        have hd0 : uint_decr u.mutex.__count ≠ 0 := by rw [hdec]; exact hz
        obtain ⟨hl1, ho1, x, hx, hox⟩ := hheld hne
        refine ⟨?_, ?_, ?_, ?_, ?_⟩
        · simpa [hd0] using hkind
        · simp [hdec, hlen_erase, hz]
        · simp only; omega
        · intro h; exact absurd h hne2
        · intro _
          simp only [hd0, if_false]
          exact ⟨hl1, ho1, x, hx, hox⟩
    · rw [if_neg hmem] at hs; cases hs

theorem usage_inv_reachable (kind : Int) (hk : int_and kind 127 = 1) (u : Usage)
    (h : Reachable within_counter kind u) : usage_inv kind u := by
  induction h with
  | init =>
    refine ⟨rfl, rfl, by simp, fun _ => ⟨rfl, rfl⟩, fun h => absurd rfl h⟩
  | step c _ hs ha ih => exact usage_inv_step kind hk _ _ c ih hs ha

theorem reachable_nested_locks (n : Nat) :
    ∃ held : List Nat, held.length = n + 1 ∧
      Reachable any_call 1 ⟨⟨1, (n + 1) % 2 ^ 32, 5, 1⟩, held, some 5⟩ := by
  induction n with
  | zero =>
    exact ⟨[5], rfl, Reachable.step ⟨5, MutexOp.lock, 1⟩ Reachable.init (by decide) trivial⟩
  | succ n ih =>
    obtain ⟨held, hlen, hr⟩ := ih
    refine ⟨5 :: held, by rw [List.length_cons, hlen], ?_⟩
    refine Reachable.step ⟨5, MutexOp.lock, 1⟩ hr ?_ trivial
    have h5 : int_of_pthread_t 5 = 5 := by decide
    have hl := lock_by_owner 1 5 1 ((n + 1) % 2 ^ 32) 1 (by decide)
    rw [h5] at hl
    have hc : uint_incr ((n + 1) % 2 ^ 32) = (n + 1 + 1) % 2 ^ 32 := by
      unfold uint_incr; omega
    simp only [use_step, hl, Usage.acquired, hc, ite_self]

/-- C7 as stated fails on reachable states of a correctly used recursive
mutex.  After lock and unlock by thread `5` the owner is `0`, not the most
recent taker.  After a lock by the thread with identity `2 ^ 32` (key `0`)
the count is `1` while owner and lock word are `0`.  After `2 ^ 32` nested
locks by thread `5` the count is `0` while the mutex is held.  After a lock
by the thread with identity `2 ^ 31` the owner is `-2 ^ 31`. -/
theorem stated_invariants_fail :
    (Reachable any_call 1 ⟨⟨0, 0, 0, 1⟩, [], some 5⟩ ∧
      ¬ stated_invariants ⟨⟨0, 0, 0, 1⟩, [], some 5⟩) ∧
    (Reachable any_call 1 ⟨⟨0, 1, 0, 1⟩, [2 ^ 32], some (2 ^ 32)⟩ ∧
      ¬ stated_invariants ⟨⟨0, 1, 0, 1⟩, [2 ^ 32], some (2 ^ 32)⟩) ∧
    (∃ u, Reachable any_call 1 u ∧ u.mutex = ⟨1, 0, 5, 1⟩ ∧ u.held.length = 2 ^ 32 ∧
      ¬ stated_invariants u) ∧
    (Reachable any_call 1 ⟨⟨1, 1, -2 ^ 31, 1⟩, [2 ^ 31], some (2 ^ 31)⟩ ∧
      ¬ stated_invariants ⟨⟨1, 1, -2 ^ 31, 1⟩, [2 ^ 31], some (2 ^ 31)⟩) := by
  refine ⟨⟨?_, ?_⟩, ⟨?_, ?_⟩, ?_, ⟨?_, ?_⟩⟩
  · have h1 : Reachable any_call 1 ⟨⟨1, 1, 5, 1⟩, [5], some 5⟩ :=
      Reachable.step ⟨5, MutexOp.lock, 1⟩ Reachable.init (by decide) trivial
    exact Reachable.step ⟨5, MutexOp.unlock, 0⟩ h1 (by decide) trivial
  · intro h
    have := h.2.2 5 rfl
    exact absurd this (by decide)
  · exact Reachable.step ⟨2 ^ 32, MutexOp.lock, 1⟩ Reachable.init (by decide) trivial
  · intro h
    exact absurd (h.1.mpr (by decide)) (by decide)
  · obtain ⟨held, hlen, hr⟩ := reachable_nested_locks 4294967295
    have hc : (4294967295 + 1) % 2 ^ 32 = 0 := by norm_num
    rw [hc] at hr
    refine ⟨⟨⟨1, 0, 5, 1⟩, held, some 5⟩, hr, rfl, ?_, ?_⟩
    · rw [hlen]; norm_num
    · intro h
      have h5 : ((5 : Int) ≠ 0) := by decide
      have h0 : (0 : Nat) < 0 := h.1.mp h5
      exact absurd h0 (by decide)
  · exact Reachable.step ⟨2 ^ 31, MutexOp.lock, 1⟩ Reachable.init (by decide) trivial
  · intro h
    have := h.2.2 (2 ^ 31) rfl
    exact absurd this (by decide)

/-- C7, amended: on a recursive mutex that starts zero-initialised and is
used correctly by threads whose key `(int) pthread_self()` is non-zero, with
fewer than `2 ^ 32` acquisitions outstanding at any time, every reachable
state has a non-zero owner exactly when the nest count is positive, lock
word `1` exactly when the nest count is positive, and, while the nest count
is positive, an owner equal to the key of the thread that most recently took
the count from `0` to `1`. -/
theorem recursive_invariants (kind : Int) (hk : int_and kind 127 = 1) (u : Usage)
    (h : Reachable within_counter kind u) : kept_invariants u := by
  obtain ⟨_, hcount, _, hfree, hheld⟩ := usage_inv_reachable kind hk u h
  by_cases he : u.held = []
  · have hz : u.mutex.__count = 0 := by rw [hcount, he]; rfl
    obtain ⟨hl, ho⟩ := hfree he
    refine ⟨?_, ?_, ?_⟩
    · rw [hz, ho]; simp
    · rw [hz, hl]; simp
    · rw [hz]; intro h0; exact absurd h0 (by decide)
  · have hpos : 0 < u.mutex.__count := by
      rw [hcount]; exact List.length_pos.mpr he
    obtain ⟨hl, ho, x, hx, hox⟩ := hheld he
    exact ⟨⟨fun _ => hpos, fun _ => ho⟩, ⟨fun _ => hpos, fun _ => hl⟩, fun _ => ⟨x, hx, hox⟩⟩

/-- Witness for C7 (amended): the state after lock, lock, unlock by thread
`5` on a zero-initialised recursive mutex. -/
theorem recursive_invariants_witness :
    int_and 1 127 = 1 ∧
    Reachable within_counter 1 ⟨⟨1, 1, 5, 1⟩, [5], some 5⟩ ∧
    kept_invariants ⟨⟨1, 1, 5, 1⟩, [5], some 5⟩ :=
  have h1 : Reachable within_counter 1 ⟨⟨1, 1, 5, 1⟩, [5], some 5⟩ :=
    Reachable.step ⟨5, MutexOp.lock, 1⟩ Reachable.init (by decide) ⟨by decide, by decide⟩
  have h2 : Reachable within_counter 1 ⟨⟨1, 2, 5, 1⟩, [5, 5], some 5⟩ :=
    Reachable.step ⟨5, MutexOp.lock, 0⟩ h1 (by decide) ⟨by decide, by decide⟩
  have hr : Reachable within_counter 1 ⟨⟨1, 1, 5, 1⟩, [5], some 5⟩ :=
    Reachable.step ⟨5, MutexOp.unlock, 0⟩ h2 (by decide) ⟨by decide, by decide⟩
  ⟨by decide, hr, recursive_invariants 1 (by decide) _ hr⟩

/-! ## Mutual exclusion of concurrent workers -/

theorem sum_update_worker (g : Worker → Nat) (f : Nat → Worker) (N t : Nat) (w : Worker)
    (ht : t < N) :
    (∑ a in Finset.range N, g (Function.update f t w a)) + g (f t)
      = (∑ a in Finset.range N, g (f a)) + g w := by
  have hmem : t ∈ Finset.range N := Finset.mem_range.mpr ht
  have hfun : (fun a => g (Function.update f t w a)) = Function.update (fun a => g (f a)) t (g w) := by
    funext a
    by_cases h : a = t
    · subst h; simp
    · simp [Function.update_noteq h]
  rw [hfun, Finset.sum_update_of_mem hmem, Finset.sdiff_singleton_eq_erase,
    ← Finset.add_sum_erase (Finset.range N) (fun a => g (f a)) hmem]
  omega

theorem sys_inv_update (K N v0 : Nat) (s : System) (t : Nat) (m : pthread_mutex_t)
    (var : Nat) (w : Worker) (ht : t < N) (hinv : sys_inv K N v0 s)
    (htype : PTHREAD_MUTEX_TYPE m ≠ PTHREAD_MUTEX_RECURSIVE_NP)
    (hw : worker_ok K m var w)
    (hothers : ∀ a, a < N → a ≠ t → worker_ok K m var (s.workers a))
    (hcs : in_cs w → ∀ a, a < N → a ≠ t → ¬ in_cs (s.workers a))
    (hvar : (var = s.var ∧ contrib w = contrib (s.workers t)) ∨
            (var = (s.var + 1) % 2 ^ 64 ∧ contrib w = contrib (s.workers t) + 1)) :
    sys_inv K N v0 { mutex := m, var := var, workers := Function.update s.workers t w } := by
  obtain ⟨_, _, hmx, hsum⟩ := hinv
  refine ⟨htype, ?_, ?_, ?_⟩
  · intro a ha
    by_cases h : a = t
    · subst h; simpa using hw
    · simpa [Function.update_noteq h] using hothers a ha h
  · intro a ha b hb hca hcb
    by_cases h1 : a = t
    · by_cases h2 : b = t
      · rw [h1, h2]
      · subst h1
        simp only [Function.update_same] at hca
        simp only [Function.update_noteq h2] at hcb
        exact absurd hcb (hcs hca b hb h2)
    · by_cases h2 : b = t
      · subst h2
        simp only [Function.update_same] at hcb
        simp only [Function.update_noteq h1] at hca
        exact absurd hca (hcs hcb a ha h1)
      · simp only [Function.update_noteq h1] at hca
        simp only [Function.update_noteq h2] at hcb
        exact hmx a ha b hb hca hcb
  · have hs := sum_update_worker contrib s.workers N t w ht
    simp only
    rcases hvar with ⟨h1, h2⟩ | ⟨h1, h2⟩
    · rw [h1, hsum]; omega
    · rw [h1, hsum]; omega

theorem lock_step_facts (lock : Int) (r : SpinReg) (hlv : r.lv ≠ 0)
    (hpc : r.pc ≠ SpinPc.done) :
    (lock ≠ 0 → (rte_spinlock_lock_step lock r).1 ≠ 0) ∧
    ((rte_spinlock_lock_step lock r).2.pc = SpinPc.done →
      lock = 0 ∧ (rte_spinlock_lock_step lock r).1 ≠ 0) ∧
    ((rte_spinlock_lock_step lock r).2.pc ≠ SpinPc.done →
      (rte_spinlock_lock_step lock r).2.lv ≠ 0) := by
  obtain ⟨pc, lv⟩ := r
  cases pc with
  | xchg =>
    by_cases h : lock = 0
    · simp [rte_spinlock_lock_step, h]
      exact hlv
    · simp [rte_spinlock_lock_step, h]
      exact hlv
  | spin =>
    by_cases h : lock = 0
    · simp [rte_spinlock_lock_step, h]
      exact hlv
    · simp [rte_spinlock_lock_step, h]
      exact hlv
  | done => exact absurd rfl hpc

theorem not_in_cs_of_pc (w : Worker)
    (h : w.pc = WorkerPc.call_lock ∨ w.pc = WorkerPc.in_lock ∨ w.pc = WorkerPc.done) :
    ¬ in_cs w := by
  unfold in_cs
  rcases h with h | h | h <;> rw [h] <;> decide

theorem sys_inv_step (K N v0 : Nat) (hK : K < 2 ^ 32) (s s1 : System) (t : Nat)
    (hinv : sys_inv K N v0 s) (hstep : sys_step K N s t = some s1) :
    sys_inv K N v0 s1 := by
  unfold sys_step at hstep
  by_cases ht : t < N
  swap
  · rw [if_neg ht] at hstep; cases hstep
  rw [if_pos ht] at hstep
  have hinv0 := hinv
  obtain ⟨htype, hok, hmx, _⟩ := hinv
  obtain ⟨hlt, hdone, hinl, hcsl, hst⟩ := hok t ht
  have hexcl : in_cs (s.workers t) → ∀ a, a < N → a ≠ t → ¬ in_cs (s.workers a) :=
    fun hc a ha hne hca => hne (hmx a ha t ht hca hc)
  cases hpc : (s.workers t).pc with
  | call_lock =>
    have hws : worker_step K s.mutex s.var (s.workers t)
        = some (s.mutex, s.var, { s.workers t with
            pc := WorkerPc.in_lock, reg := { pc := SpinPc.xchg, lv := 1 } }) := by
      unfold worker_step; rw [hpc]; simp only [if_neg htype]
    rw [hws] at hstep
    simp only [Option.some.injEq] at hstep
    subst hstep
    refine sys_inv_update K N v0 s t _ _ _ ht hinv0 htype ?_ (fun a ha _ => hok a ha) ?_ ?_
    · have h1 : (1 : Int) ≠ 0 := by decide
      have h2 : SpinPc.xchg ≠ SpinPc.done := by decide
      refine ⟨fun _ => hlt (by rw [hpc]; decide), fun h => ?_, fun _ => ⟨h1, h2⟩,
        fun h => ?_, fun h => ?_⟩
      · simp at h
      · exact absurd h (not_in_cs_of_pc _ (Or.inr (Or.inl rfl)))
      · simp at h
    · intro h
      exact absurd h (not_in_cs_of_pc _ (Or.inr (Or.inl rfl)))
    · left
      exact ⟨rfl, by simp [contrib, hpc]⟩
  | in_lock =>
    obtain ⟨hlv, hrpc⟩ := hinl hpc
    obtain ⟨hf1, hf2, hf3⟩ := lock_step_facts s.mutex.__lock (s.workers t).reg hlv hrpc
    have hws : worker_step K s.mutex s.var (s.workers t)
        = some ({ s.mutex with __lock := (rte_spinlock_lock_step s.mutex.__lock (s.workers t).reg).1 },
            s.var, { s.workers t with
              pc := if (rte_spinlock_lock_step s.mutex.__lock (s.workers t).reg).2.pc = SpinPc.done
                    then WorkerPc.load else WorkerPc.in_lock,
              reg := (rte_spinlock_lock_step s.mutex.__lock (s.workers t).reg).2 }) := by
      unfold worker_step; rw [hpc]
    rw [hws] at hstep
    simp only [Option.some.injEq] at hstep
    subst hstep
    have hnotcs : ¬ in_cs (s.workers t) := not_in_cs_of_pc _ (Or.inr (Or.inl hpc))
    refine sys_inv_update K N v0 s t _ _ _ ht hinv0 htype ?_ ?_ ?_ ?_
    · by_cases hd : (rte_spinlock_lock_step s.mutex.__lock (s.workers t).reg).2.pc = SpinPc.done
      · refine ⟨fun _ => hlt (by rw [hpc]; decide), fun h => ?_, fun h => ?_,
          fun _ => (hf2 hd).2, fun h => ?_⟩
        · simp [hd] at h
        · simp [hd] at h
        · simp [hd] at h
      · refine ⟨fun _ => hlt (by rw [hpc]; decide), fun h => ?_, fun _ => ⟨hf3 hd, hd⟩,
          fun h => ?_, fun h => ?_⟩
        · simp [hd] at h
        · exact absurd h (not_in_cs_of_pc _ (Or.inr (Or.inl (by simp [hd]))))
        · simp [hd] at h
    · intro a ha _
      obtain ⟨h1, h2, h3, h4, h5⟩ := hok a ha
      exact ⟨h1, h2, h3, fun hc => hf1 (h4 hc), h5⟩
    · intro hc a ha _ hca
      have hd : (rte_spinlock_lock_step s.mutex.__lock (s.workers t).reg).2.pc = SpinPc.done := by
        by_contra hd
        exact absurd hc (not_in_cs_of_pc _ (Or.inr (Or.inl (by simp [hd]))))
      exact (hok a ha).2.2.2.1 hca (hf2 hd).1
    · left
      refine ⟨rfl, ?_⟩
      by_cases hd : (rte_spinlock_lock_step s.mutex.__lock (s.workers t).reg).2.pc = SpinPc.done
      · simp [contrib, hpc, hd]
      · simp [contrib, hpc, hd]
  | load =>
    have hws : worker_step K s.mutex s.var (s.workers t)
        = some (s.mutex, s.var, { s.workers t with pc := WorkerPc.store, tmp := s.var }) := by
      unfold worker_step; rw [hpc]
    rw [hws] at hstep
    simp only [Option.some.injEq] at hstep
    subst hstep
    have hc : in_cs (s.workers t) := Or.inl hpc
    refine sys_inv_update K N v0 s t _ _ _ ht hinv0 htype ?_ (fun a ha _ => hok a ha)
      (fun _ => hexcl hc) ?_
    · refine ⟨fun _ => hlt (by rw [hpc]; decide), fun h => ?_, fun h => ?_,
        fun _ => hcsl hc, fun _ => rfl⟩
      · simp at h
      · simp at h
    · left
      exact ⟨rfl, by simp [contrib, hpc]⟩
  | store =>
    have hws : worker_step K s.mutex s.var (s.workers t)
        = some (s.mutex, ((s.workers t).tmp + 1) % 2 ^ 64,
            { s.workers t with pc := WorkerPc.call_unlock }) := by
      unfold worker_step; rw [hpc]
    rw [hws] at hstep
    simp only [Option.some.injEq] at hstep
    subst hstep
    have hc : in_cs (s.workers t) := Or.inr (Or.inl hpc)
    refine sys_inv_update K N v0 s t _ _ _ ht hinv0 htype ?_ ?_ (fun _ => hexcl hc) ?_
    · refine ⟨fun _ => hlt (by rw [hpc]; decide), fun h => ?_, fun h => ?_,
        fun _ => hcsl hc, fun h => ?_⟩
      · simp at h
      · simp at h
      · simp at h
    · intro a ha hne
      obtain ⟨h1, h2, h3, h4, _⟩ := hok a ha
      refine ⟨h1, h2, h3, h4, fun hs => ?_⟩
      exact absurd (Or.inr (Or.inl hs)) (hexcl hc a ha hne)
    · right
      exact ⟨by rw [hst hpc], by simp [contrib, hpc]⟩
  | call_unlock =>
    have hws : worker_step K s.mutex s.var (s.workers t)
        = some (rte_spinlock_unlock s.mutex, s.var,
            { s.workers t with i := ((s.workers t).i + 1) % 2 ^ 32,
                               pc := loop_head K (((s.workers t).i + 1) % 2 ^ 32) }) := by
      unfold worker_step; rw [hpc]; simp only [if_neg htype]
    rw [hws] at hstep
    simp only [Option.some.injEq] at hstep
    subst hstep
    have hc : in_cs (s.workers t) := Or.inr (Or.inr hpc)
    have hi : (s.workers t).i < K := hlt (by rw [hpc]; decide)
    have hmod : ((s.workers t).i + 1) % 2 ^ 32 = (s.workers t).i + 1 :=
      Nat.mod_eq_of_lt (by omega)
    have hhead : loop_head K ((s.workers t).i + 1) = WorkerPc.call_lock ∨
        (loop_head K ((s.workers t).i + 1) = WorkerPc.done ∧ (s.workers t).i + 1 = K) := by
      unfold loop_head
      by_cases hlt2 : (s.workers t).i + 1 < K
      · left; rw [if_pos hlt2]
      · right; rw [if_neg hlt2]; exact ⟨rfl, by omega⟩
    have hnot : ∀ w : Worker, w.pc = loop_head K ((s.workers t).i + 1) → ¬ in_cs w := by
      intro w hw
      rcases hhead with h | ⟨h, _⟩
      · exact not_in_cs_of_pc w (Or.inl (hw.trans h))
      · exact not_in_cs_of_pc w (Or.inr (Or.inr (hw.trans h)))
    rw [hmod]
    refine sys_inv_update K N v0 s t _ _ _ ht hinv0 htype ?_ ?_ ?_ ?_
    · refine ⟨fun h => ?_, fun h => ?_, fun h => ?_, fun h => ?_, fun h => ?_⟩
      · rcases hhead with h2 | ⟨h2, _⟩
        · simp only at h ⊢
          unfold loop_head at h2
          by_contra hge
          rw [if_neg hge] at h2
          cases h2
        · exact absurd h2 h
      · rcases hhead with h2 | ⟨_, h3⟩
        · simp only at h
          rw [h2] at h
          cases h
        · exact h3
      · rcases hhead with h2 | ⟨h2, _⟩
        · simp only at h; rw [h2] at h; cases h
        · simp only at h; rw [h2] at h; cases h
      · exact absurd h (hnot _ rfl)
      · rcases hhead with h2 | ⟨h2, _⟩
        · simp only at h; rw [h2] at h; cases h
        · simp only at h; rw [h2] at h; cases h
    · intro a ha hne
      obtain ⟨h1, h2, h3, _, h5⟩ := hok a ha
      exact ⟨h1, h2, h3, fun hca => absurd hca (hexcl hc a ha hne), h5⟩
    · intro h
      exact absurd h (hnot _ rfl)
    · left
      refine ⟨rfl, ?_⟩
      rcases hhead with h2 | ⟨h2, _⟩
      · simp [contrib, hpc, h2]
      · simp [contrib, hpc, h2]
  | done =>
    have hws : worker_step K s.mutex s.var (s.workers t)
        = some (s.mutex, s.var, s.workers t) := by
      unfold worker_step; rw [hpc]
    rw [hws] at hstep
    simp only [Option.some.injEq] at hstep
    subst hstep
    exact sys_inv_update K N v0 s t _ _ _ ht hinv0 htype (hok t ht) (fun a ha _ => hok a ha)
      hexcl (Or.inl ⟨rfl, rfl⟩)

theorem worker_init_ok (K : Nat) (m : pthread_mutex_t) (var : Nat) :
    worker_ok K m var (worker_init K) ∧ ¬ in_cs (worker_init K) ∧ contrib (worker_init K) = 0 := by
  unfold worker_init loop_head
  by_cases h : 0 < K
  · simp only [if_pos h]
    refine ⟨⟨fun _ => h, fun h2 => ?_, fun h2 => ?_, fun h2 => ?_, fun h2 => ?_⟩, ?_, ?_⟩
    · simp at h2
    · simp at h2
    · exact absurd h2 (not_in_cs_of_pc _ (Or.inl rfl))
    · simp at h2
    · exact not_in_cs_of_pc _ (Or.inl rfl)
    · simp [contrib]
  · simp only [if_neg h]
    refine ⟨⟨fun h2 => ?_, fun _ => ?_, fun h2 => ?_, fun h2 => ?_, fun h2 => ?_⟩, ?_, ?_⟩
    · simp at h2
    · simp only; omega
    · simp at h2
    · exact absurd h2 (not_in_cs_of_pc _ (Or.inr (Or.inr rfl)))
    · simp at h2
    · exact not_in_cs_of_pc _ (Or.inr (Or.inr rfl))
    · simp [contrib]

theorem sys_inv_init (K N v0 : Nat) (m : pthread_mutex_t) (hv : v0 < 2 ^ 64)
    (hm : PTHREAD_MUTEX_TYPE m ≠ PTHREAD_MUTEX_RECURSIVE_NP) :
    sys_inv K N v0 (sys_init K m v0) := by
  obtain ⟨hok, hncs, hc⟩ := worker_init_ok K m v0
  refine ⟨hm, fun _ _ => hok, fun a _ b _ hca _ => absurd hca hncs, ?_⟩
  have hsum : ∑ a in Finset.range N, contrib ((sys_init K m v0).workers a) = 0 :=
    Finset.sum_eq_zero (fun a _ => hc)
  rw [hsum]
  exact (Nat.mod_eq_of_lt (by simpa using hv)).symm

theorem sys_inv_run (K N v0 : Nat) (hK : K < 2 ^ 32) (sched : List Nat) :
    ∀ s s1 : System, sys_inv K N v0 s → run_schedule K N sched s = some s1 →
      sys_inv K N v0 s1 := by
  induction sched with
  | nil =>
    intro s s1 hinv hrun
    simp only [run_schedule, Option.some.injEq] at hrun
    subst hrun
    exact hinv
  | cons t ts ih =>
    intro s s1 hinv hrun
    unfold run_schedule at hrun
    cases hstep : sys_step K N s t with
    | none => rw [hstep] at hrun; cases hrun
    | some s2 =>
      rw [hstep] at hrun
      exact ih s2 s1 (sys_inv_step K N v0 hK s s2 t hinv hstep) hrun

theorem sys_inv_final (K N v0 : Nat) (s : System) (hinv : sys_inv K N v0 s)
    (hdone : all_done N s) :
    s.var = (v0 + N * K) % 2 ^ 64 ∧
    PTHREAD_MUTEX_TYPE s.mutex ≠ PTHREAD_MUTEX_RECURSIVE_NP := by
  obtain ⟨htype, hok, _, hsum⟩ := hinv
  have hall : ∑ a in Finset.range N, contrib (s.workers a) = N * K := by
    have hc : ∀ a ∈ Finset.range N, contrib (s.workers a) = K := by
      intro a ha
      have ha2 := Finset.mem_range.mp ha
      have hpc := hdone a ha2
      have hi := (hok a ha2).2.1 hpc
      simp [contrib, hpc, hi]
    rw [Finset.sum_const_nat hc, Finset.card_range]
  rw [hall] at hsum
  exact ⟨hsum, htype⟩

theorem run_rounds_count (K N : Nat) (hK : K < 2 ^ 32) (rounds : List (List Nat)) :
    ∀ (m : pthread_mutex_t) (v : Nat) (r : pthread_mutex_t × Nat), v < 2 ^ 64 →
      PTHREAD_MUTEX_TYPE m ≠ PTHREAD_MUTEX_RECURSIVE_NP →
      run_rounds K N rounds (m, v) = some r →
      r.2 = (v + rounds.length * (N * K)) % 2 ^ 64 := by
  induction rounds with
  | nil =>
    intro m v r hv _ hrun
    simp only [run_rounds, Option.some.injEq] at hrun
    subst hrun
    simp only [List.length_nil, Nat.zero_mul, Nat.add_zero]
    exact (Nat.mod_eq_of_lt hv).symm
  | cons sched rest ih =>
    intro m v r hv hm hrun
    unfold run_rounds at hrun
    cases hs : run_schedule K N sched (sys_init K m v) with
    | none => simp only [hs] at hrun; cases hrun
    | some s =>
      simp only [hs] at hrun
      by_cases hd : all_done N s
      · rw [if_pos hd] at hrun
        have hinv := sys_inv_run K N v hK sched _ s (sys_inv_init K N v m hv hm) hs
        obtain ⟨hvar, htype⟩ := sys_inv_final K N v s hinv hd
        have hlt : s.var < 2 ^ 64 := by rw [hvar]; exact Nat.mod_lt _ (by norm_num)
        rw [ih s.mutex s.var r hlt htype hrun, hvar, List.length_cons, Nat.succ_mul]
        generalize N * K = c
        generalize rest.length * c = d
        omega
      · rw [if_neg hd] at hrun; cases hrun

/-- C9: `N` workers, each running `K` times lock, `var ++`, unlock on one
normal-type mutex, with `N` and `K` in the range of `unsigned` and `var`
starting at `0`.  After every interleaving of their memory accesses at most
one worker is inside the critical section, and once all workers have
finished `var` equals `N * K`.  Ten repetitions of four workers with a
thousand iterations each leave `var` at `40000`. -/
theorem workers_exclusive_and_counted (N K : Nat) (hN : N < 2 ^ 32) (hK : K < 2 ^ 32)
    (m : pthread_mutex_t) (hm : PTHREAD_MUTEX_TYPE m ≠ PTHREAD_MUTEX_RECURSIVE_NP)
    (sched : List Nat) (s : System)
    (hrun : run_schedule K N sched (sys_init K m 0) = some s) :
    mutual_exclusion N s ∧
    (all_done N s → s.var = N * K) ∧
    (∀ (rounds : List (List Nat)) (r : pthread_mutex_t × Nat), rounds.length = 10 →
      run_rounds 1000 4 rounds (m, 0) = some r → r.2 = 40000) := by
  have hinv := sys_inv_run K N 0 hK sched _ s (sys_inv_init K N 0 m (by norm_num) hm) hrun
  refine ⟨hinv.2.2.1, fun hd => ?_, fun rounds r hlen hr => ?_⟩
  · have hvar := (sys_inv_final K N 0 s hinv hd).1
    have hlt : N * K < 2 ^ 64 := by
      calc N * K < 2 ^ 32 * 2 ^ 32 := Nat.mul_lt_mul'' hN hK
        _ = 2 ^ 64 := by norm_num
    rw [hvar, Nat.zero_add]
    exact Nat.mod_eq_of_lt hlt
  · rw [run_rounds_count 1000 4 (by norm_num) rounds m 0 r (by norm_num) hm hr, hlen]
    norm_num

/-- Witness for C9: two workers with one iteration each, interleaved so that
the second spins while the first is inside the critical section. -/
theorem workers_exclusive_and_counted_witness :
    ∃ s, run_schedule 1 2 [0, 1, 0, 1, 1, 0, 0, 0, 1, 1, 1, 1, 1] (sys_init 1 ⟨0, 0, 0, 0⟩ 0)
        = some s ∧
      all_done 2 s ∧ mutual_exclusion 2 s ∧ s.var = 2 * 1 := by
  have hsome : (run_schedule 1 2 [0, 1, 0, 1, 1, 0, 0, 0, 1, 1, 1, 1, 1]
      (sys_init 1 ⟨0, 0, 0, 0⟩ 0)).isSome = true := by decide
  obtain ⟨s, hs⟩ := Option.isSome_iff_exists.mp hsome
  have hd : (run_schedule 1 2 [0, 1, 0, 1, 1, 0, 0, 0, 1, 1, 1, 1, 1]
      (sys_init 1 ⟨0, 0, 0, 0⟩ 0)).all (fun x => decide (all_done 2 x)) = true := by decide
  rw [hs] at hd
  have hdone : all_done 2 s := of_decide_eq_true hd
  have h := workers_exclusive_and_counted 2 1 (by norm_num) (by norm_num) ⟨0, 0, 0, 0⟩
    (by decide) _ s hs
  exact ⟨s, hs, hdone, h.1, h.2.1 hdone⟩

/-! ## Acquire -/

theorem lock_step_done_lv (lock : Int) (r : SpinReg) (hpc : r.pc ≠ SpinPc.done)
    (hd : (rte_spinlock_lock_step lock r).2.pc = SpinPc.done) :
    (rte_spinlock_lock_step lock r).2.lv = 0 := by
  obtain ⟨pc, lv⟩ := r
  cases pc with
  | xchg =>
    by_cases h : lock = 0
    · simp [rte_spinlock_lock_step, h]
    · simp [rte_spinlock_lock_step, h] at hd
  | spin =>
    by_cases h : lock = 0
    · simp [rte_spinlock_lock_step, h] at hd
    · simp [rte_spinlock_lock_step, h] at hd
  | done => exact absurd rfl hpc

theorem lock_step_flag (lock : Int) (r : SpinReg) (hl : lock = 0 ∨ lock = 1)
    (hlv : r.lv = 1) (hpc : r.pc ≠ SpinPc.done) :
    ((rte_spinlock_lock_step lock r).1 = 0 ∨ (rte_spinlock_lock_step lock r).1 = 1) ∧
    ((rte_spinlock_lock_step lock r).2.pc ≠ SpinPc.done →
      (rte_spinlock_lock_step lock r).2.lv = 1) ∧
    ((rte_spinlock_lock_step lock r).2.pc = SpinPc.done →
      (rte_spinlock_lock_step lock r).1 = 1) := by
  obtain ⟨pc, lv⟩ := r
  simp only at hlv
  subst hlv
  cases pc with
  | xchg =>
    rcases hl with h | h
    · simp [rte_spinlock_lock_step, h]
    · simp [rte_spinlock_lock_step, h]
  | spin =>
    rcases hl with h | h
    · simp [rte_spinlock_lock_step, h]
    · simp [rte_spinlock_lock_step, h]
  | done => exact absurd rfl hpc

theorem spin_with_env_returned (env : List (Option Int)) :
    ∀ p : Int × SpinReg,
      (p.2.pc ≠ SpinPc.done → p.2.lv ≠ 0) →
      (p.2.pc = SpinPc.done → p.2.lv = 0 ∧ p.1 ≠ 0) →
      (spin_with_env env p).2.pc = SpinPc.done →
      (spin_with_env env p).2.lv = 0 ∧ (spin_with_env env p).1 ≠ 0 := by
  induction env with
  | nil => intro p _ h2 hd; exact h2 hd
  | cons e es ih =>
    intro p h1 h2 hd
    unfold spin_with_env at hd ⊢
    by_cases hp : p.2.pc = SpinPc.done
    · rw [if_pos hp] at hd ⊢
      exact h2 hp
    · rw [if_neg hp] at hd ⊢
      obtain ⟨_, hf2, hf3⟩ := lock_step_facts (e.getD p.1) p.2 (h1 hp) hp
      exact ih _ hf3 (fun h => ⟨lock_step_done_lv _ _ hp h, (hf2 h).2⟩) hd

theorem spin_with_env_flag (env : List (Option Int))
    (henv : ∀ e ∈ env, e = none ∨ e = some 0 ∨ e = some 1) :
    ∀ p : Int × SpinReg,
      (p.1 = 0 ∨ p.1 = 1) →
      (p.2.pc ≠ SpinPc.done → p.2.lv = 1) →
      (p.2.pc = SpinPc.done → p.1 = 1) →
      (spin_with_env env p).2.pc = SpinPc.done →
      (spin_with_env env p).1 = 1 := by
  induction env with
  | nil => intro p _ _ h3 hd; exact h3 hd
  | cons e es ih =>
    intro p h1 h2 h3 hd
    unfold spin_with_env at hd ⊢
    by_cases hp : p.2.pc = SpinPc.done
    · rw [if_pos hp] at hd ⊢
      exact h3 hp
    · rw [if_neg hp] at hd ⊢
      have hl : e.getD p.1 = 0 ∨ e.getD p.1 = 1 := by
        rcases henv e (List.mem_cons_self e es) with h | h | h
        · rw [h]; exact h1
        · rw [h]; exact Or.inl rfl
        · rw [h]; exact Or.inr rfl
      obtain ⟨g1, g2, g3⟩ := lock_step_flag (e.getD p.1) p.2 hl (h2 hp) hp
      exact ih (fun x hx => henv x (List.mem_cons_of_mem e hx)) _ g1 g2 g3 hd

/-- C11 as stated fails for a call that has to retry: the retry exchange
stores what the previous exchange swapped out, not `1`.  On a lock word `2`
that another thread sets to `0` while the call spins, the call returns
having swapped out `0` and leaves lock word `2`. -/
theorem acquire_returns_with_old_word :
    spin_with_env [none, some 0, none] (2, { pc := SpinPc.xchg, lv := 1 })
      = (2, { pc := SpinPc.done, lv := 0 }) ∧
    (spin_with_env [none, some 0, none] (2, { pc := SpinPc.xchg, lv := 1 })).1 ≠ 1 := by
  decide

/-- C11, amended: on a mutex whose lock word is `0`, `rte_spinlock_lock`
returns after its first memory access, the exchange, which swaps out `0`,
goes to the exit label and not to the spin loop, and leaves lock word `1`
with every other field unchanged; with no other thread writing the lock
word the call returns only in this way.  Whenever a call returns, also with
other threads writing the lock word, its final exchange swapped out `0` and
left a non-zero lock word; that lock word is `1` when the lock word held
only `0` or `1` during the call. -/
theorem acquire_free_and_returned (sl : pthread_mutex_t) :
    (sl.__lock = 0 →
      rte_spinlock_lock 1 sl = some { sl with __lock := 1 } ∧
      rte_spinlock_lock_step sl.__lock { pc := SpinPc.xchg, lv := 1 }
        = (1, { pc := SpinPc.done, lv := 0 })) ∧
    (∀ fuel s, rte_spinlock_lock fuel sl = some s →
      sl.__lock = 0 ∧ s = { sl with __lock := 1 }) ∧
    (∀ env : List (Option Int),
      (spin_with_env env (sl.__lock, { pc := SpinPc.xchg, lv := 1 })).2.pc = SpinPc.done →
      (spin_with_env env (sl.__lock, { pc := SpinPc.xchg, lv := 1 })).2.lv = 0 ∧
      (spin_with_env env (sl.__lock, { pc := SpinPc.xchg, lv := 1 })).1 ≠ 0 ∧
      ((sl.__lock = 0 ∨ sl.__lock = 1) →
        (∀ e ∈ env, e = none ∨ e = some 0 ∨ e = some 1) →
        (spin_with_env env (sl.__lock, { pc := SpinPc.xchg, lv := 1 })).1 = 1)) := by
  have hx : SpinPc.xchg ≠ SpinPc.done := by decide
  have h10 : (1 : Int) ≠ 0 := by decide
  refine ⟨?_, ?_, ?_⟩
  · intro h
    refine ⟨?_, ?_⟩
    · rw [rte_spinlock_lock_succ, if_pos h]
    · simp [rte_spinlock_lock_step, h]
  · intro fuel s hs
    cases fuel with
    | zero => rw [rte_spinlock_lock_zero] at hs; cases hs
    | succ n =>
      rw [rte_spinlock_lock_succ] at hs
      by_cases h : sl.__lock = 0
      · rw [if_pos h] at hs
        simp only [Option.some.injEq] at hs
        exact ⟨h, hs.symm⟩
      · rw [if_neg h] at hs; cases hs
  · intro env hd
    have hr := spin_with_env_returned env (sl.__lock, { pc := SpinPc.xchg, lv := 1 })
      (fun _ => h10) (fun h => absurd h hx) hd
    refine ⟨hr.1, hr.2, fun hl henv => ?_⟩
    exact spin_with_env_flag env henv (sl.__lock, { pc := SpinPc.xchg, lv := 1 })
      hl (fun _ => rfl) (fun h => absurd h hx) hd

/-- Witness for C11 (amended): a free mutex taken at once, and a held mutex
taken after another thread has released it. -/
theorem acquire_free_and_returned_witness :
    rte_spinlock_lock 1 ⟨0, 3, 7, 0⟩ = some ⟨1, 3, 7, 0⟩ ∧
    (spin_with_env [none, none, some 0, none] (1, { pc := SpinPc.xchg, lv := 1 })).2.lv = 0 ∧
    (spin_with_env [none, none, some 0, none] (1, { pc := SpinPc.xchg, lv := 1 })).1 = 1 :=
  ⟨((acquire_free_and_returned ⟨0, 3, 7, 0⟩).1 rfl).1,
   ((acquire_free_and_returned ⟨1, 3, 7, 0⟩).2.2 [none, none, some 0, none] (by decide)).1,
   ((acquire_free_and_returned ⟨1, 3, 7, 0⟩).2.2 [none, none, some 0, none] (by decide)).2.2
     (by decide) (by decide)⟩

/-! ## Recursive acquire -/

/-- C12 as stated fails at the largest nest count: the lock call of the
owner on a recursive mutex with `__count = 4294967295` leaves the count at
`0`, not at `4294967296`. -/
theorem recursive_lock_count_wraps :
    WellFormed ⟨1, 4294967295, 5, 1⟩ ∧
    (⟨1, 4294967295, 5, 1⟩ : pthread_mutex_t).__owner = int_of_pthread_t 5 ∧
    rte_spinlock_recursive_lock 1 5 ⟨1, 4294967295, 5, 1⟩ = some ⟨1, 0, 5, 1⟩ ∧
    (0 : Nat) ≠ 4294967295 + 1 := by
  decide

/-- C12, amended: with `id` the key `(int) pthread_self()` of the caller.
If the owner differs from `id` and the lock word is `0`, the call returns
after one exchange with lock word `1`, owner `id` and the count incremented
modulo `2 ^ 32`.  If the owner is `id`, the call returns without any access
to the lock word and only the count changes, incremented modulo `2 ^ 32`.
The increment is exactly `+ 1` unless the count is `2 ^ 32 - 1`. -/
theorem recursive_lock_effect (fuel t : Nat) (slr : pthread_mutex_t) :
    (slr.__owner ≠ int_of_pthread_t t → slr.__lock = 0 →
      rte_spinlock_recursive_lock (fuel + 1) t slr
        = some { slr with __lock := 1, __owner := int_of_pthread_t t,
                          __count := (slr.__count + 1) % 2 ^ 32 }) ∧
    (slr.__owner = int_of_pthread_t t →
      rte_spinlock_recursive_lock fuel t slr
        = some { slr with __count := (slr.__count + 1) % 2 ^ 32 } ∧
      rte_spinlock_recursive_lock 0 t slr
        = some { slr with __count := (slr.__count + 1) % 2 ^ 32 }) ∧
    (slr.__count < 2 ^ 32 - 1 → (slr.__count + 1) % 2 ^ 32 = slr.__count + 1) := by
  refine ⟨?_, ?_, ?_⟩
  · intro ho hl
    unfold rte_spinlock_recursive_lock
    rw [rte_spinlock_lock_succ]
    simp [ho, hl, uint_incr]
  · intro ho
    constructor <;> simp [rte_spinlock_recursive_lock, ho, uint_incr]
  · intro hc
    exact Nat.mod_eq_of_lt (by omega)

/-- Witness for C12 (amended): a free recursive mutex taken by thread `5`,
and a nested lock by its owner `6`. -/
theorem recursive_lock_effect_witness :
    rte_spinlock_recursive_lock 1 5 ⟨0, 0, 0, 1⟩ = some ⟨1, 1, 5, 1⟩ ∧
    rte_spinlock_recursive_lock 0 6 ⟨1, 2, 6, 1⟩ = some ⟨1, 3, 6, 1⟩ ∧
    (2 + 1) % 2 ^ 32 = 2 + 1 :=
  ⟨((recursive_lock_effect 0 5 ⟨0, 0, 0, 1⟩).1 (by decide) rfl).trans (by decide),
   ((recursive_lock_effect 0 6 ⟨1, 2, 6, 1⟩).2.1 (by decide)).2.trans (by decide),
   (recursive_lock_effect 0 6 ⟨1, 2, 6, 1⟩).2.2 (by decide)⟩

/-! ## Spinning without end -/

theorem spin_steps_spinning (n : Nat) (lock lv : Int) (h : lock ≠ 0) :
    spin_steps n (lock, { pc := SpinPc.spin, lv := lv })
      = (lock, { pc := SpinPc.spin, lv := lv }) := by
  induction n with
  | zero => rfl
  | succ n ih =>
    unfold spin_steps
    simp only [rte_spinlock_lock_step, if_pos h]
    exact ih

theorem lock_after_held (n : Nat) (sl : pthread_mutex_t) (h : sl.__lock ≠ 0) :
    rte_spinlock_lock_after (n + 1) sl
      = ({ sl with __lock := 1 }, { pc := SpinPc.spin, lv := sl.__lock }) := by
  unfold rte_spinlock_lock_after spin_steps
  simp only [rte_spinlock_lock_step, if_neg h]
  rw [spin_steps_spinning n 1 sl.__lock (by decide)]

theorem lock_normal_eq (fuel self : Nat) (m : pthread_mutex_t)
    (ht : PTHREAD_MUTEX_TYPE m ≠ PTHREAD_MUTEX_RECURSIVE_NP) :
    pthread_mutex_lock fuel self m = (rte_spinlock_lock fuel m).map (fun s => (s, 0)) := by
  unfold pthread_mutex_lock
  rw [if_neg ht]

theorem lock_held_none (fuel : Nat) (sl : pthread_mutex_t) (h : sl.__lock ≠ 0) :
    rte_spinlock_lock fuel sl = none := by
  cases fuel with
  | zero => rfl
  | succ n => rw [rte_spinlock_lock_succ, if_neg h]

/-- C13 as stated fails when the lock word is non-zero but not `1`: the
first exchange of `rte_spinlock_lock` stores `1`, so a mutex with lock word
`2` has lock word `1` from then on while the thread spins. -/
theorem spin_changes_lock_word :
    (⟨2, 0, 0, 0⟩ : pthread_mutex_t).__lock ≠ 0 ∧
    rte_spinlock_lock_after 1 ⟨2, 0, 0, 0⟩
      = (⟨1, 0, 0, 0⟩, { pc := SpinPc.spin, lv := 2 }) ∧
    (rte_spinlock_lock_after 1 ⟨2, 0, 0, 0⟩).1 ≠ ⟨2, 0, 0, 0⟩ := by
  decide

/-- C13, amended: if the lock word is non-zero when `rte_spinlock_lock` is
called and no other thread writes it, then after the first exchange and any
number `n` of loop iterations the thread is at the spin loop, the lock word
is `1` (the exchange stored it) and no other field has changed, so the
mutex is unchanged when its lock word was `1`; the call returns within no
budget, nor does `pthread_mutex_lock` on a normal mutex.  A thread that has
taken a normal mutex and calls `pthread_mutex_lock` on it again spins
forever on the unchanged mutex. -/
theorem spin_never_exits (sl : pthread_mutex_t) (h : sl.__lock ≠ 0) (n fuel self : Nat) :
    (rte_spinlock_lock_after (n + 1) sl).2.pc = SpinPc.spin ∧
    (rte_spinlock_lock_after (n + 1) sl).1 = { sl with __lock := 1 } ∧
    (sl.__lock = 1 → (rte_spinlock_lock_after (n + 1) sl).1 = sl) ∧
    rte_spinlock_lock fuel sl = none ∧
    (PTHREAD_MUTEX_TYPE sl ≠ PTHREAD_MUTEX_RECURSIVE_NP →
      pthread_mutex_lock fuel self sl = none) ∧
    (∀ (m : pthread_mutex_t) (fuel0 : Nat),
      PTHREAD_MUTEX_TYPE m ≠ PTHREAD_MUTEX_RECURSIVE_NP →
      pthread_mutex_lock fuel0 self m = some (sl, 0) →
      pthread_mutex_lock fuel self sl = none ∧ (rte_spinlock_lock_after (n + 1) sl).1 = sl) := by
  have hafter := lock_after_held n sl h
  have hone : sl.__lock = 1 → ({ sl with __lock := 1 } : pthread_mutex_t) = sl := by
    intro h1
    cases sl
    simp_all
  refine ⟨by rw [hafter], by rw [hafter], fun h1 => by rw [hafter]; exact hone h1,
    lock_held_none fuel sl h, fun ht => ?_, fun m fuel0 hm hl => ?_⟩
  · rw [lock_normal_eq fuel self sl ht, lock_held_none fuel sl h]
    rfl
  · rw [lock_normal_eq fuel0 self m hm] at hl
    cases fuel0 with
    | zero => rw [rte_spinlock_lock_zero] at hl; cases hl
    | succ k =>
      rw [rte_spinlock_lock_succ] at hl
      by_cases h0 : m.__lock = 0
      · rw [if_pos h0] at hl
        simp only [Option.map_some', Option.some.injEq, Prod.mk.injEq, and_true] at hl
        have hty : PTHREAD_MUTEX_TYPE sl ≠ PTHREAD_MUTEX_RECURSIVE_NP := by
          rw [← hl]; exact hm
        have h1 : sl.__lock = 1 := by rw [← hl]
        refine ⟨?_, ?_⟩
        · rw [lock_normal_eq fuel self sl hty, lock_held_none fuel sl h]
          rfl
        · rw [hafter]; exact hone h1
      · rw [if_neg h0] at hl
        cases hl

/-- Witness for C13 (amended): thread `5` takes a free normal mutex, then
calls `pthread_mutex_lock` on it again. -/
theorem spin_never_exits_witness :
    pthread_mutex_lock 1 5 ⟨0, 0, 0, 0⟩ = some (⟨1, 0, 0, 0⟩, 0) ∧
    pthread_mutex_lock 9 5 ⟨1, 0, 0, 0⟩ = none ∧
    (rte_spinlock_lock_after (3 + 1) ⟨1, 0, 0, 0⟩).1 = ⟨1, 0, 0, 0⟩ ∧
    (rte_spinlock_lock_after (3 + 1) ⟨1, 0, 0, 0⟩).2.pc = SpinPc.spin :=
  ⟨by decide,
   ((spin_never_exits ⟨1, 0, 0, 0⟩ (by decide) 3 9 5).2.2.2.2.2 ⟨0, 0, 0, 0⟩ 1
      (by decide) (by decide)).1,
   ((spin_never_exits ⟨1, 0, 0, 0⟩ (by decide) 3 9 5).2.2.2.2.2 ⟨0, 0, 0, 0⟩ 1
      (by decide) (by decide)).2,
   (spin_never_exits ⟨1, 0, 0, 0⟩ (by decide) 3 9 5).1⟩

/-! ## Lock/unlock round trip -/

theorem trylock_normal_eq (t : Nat) (m : pthread_mutex_t)
    (ht : PTHREAD_MUTEX_TYPE m ≠ PTHREAD_MUTEX_RECURSIVE_NP) :
    pthread_mutex_trylock t m
      = ((rte_spinlock_trylock m).1, trylock_code (rte_spinlock_trylock m).2) := by
  unfold pthread_mutex_trylock trylock_code
  rw [if_neg ht]
  by_cases hr : (rte_spinlock_trylock m).2 = 0 <;> simp [hr]

theorem trylock_recursive_eq (t : Nat) (m : pthread_mutex_t)
    (ht : PTHREAD_MUTEX_TYPE m = PTHREAD_MUTEX_RECURSIVE_NP) :
    pthread_mutex_trylock t m
      = ((rte_spinlock_recursive_trylock t m).1,
         trylock_code (rte_spinlock_recursive_trylock t m).2) := by
  unfold pthread_mutex_trylock trylock_code
  rw [if_pos ht]
  by_cases hr : (rte_spinlock_recursive_trylock t m).2 = 0 <;> simp [hr]

theorem trylock_by_owner (t : Nat) (l : Int) (c : Nat) (k : Int)
    (hk : int_and k 127 = 1) :
    pthread_mutex_trylock t ⟨l, c, int_of_pthread_t t, k⟩
      = (⟨l, uint_incr c, int_of_pthread_t t, k⟩, 0) := by
  have ht : PTHREAD_MUTEX_TYPE ⟨l, c, int_of_pthread_t t, k⟩ = PTHREAD_MUTEX_RECURSIVE_NP := hk
  rw [trylock_recursive_eq t _ ht, recursive_trylock_eq]
  simp [trylock_code]

theorem trylock_free_recursive (t : Nat) (c : Nat) (o k : Int)
    (hk : int_and k 127 = 1) (ho : o ≠ int_of_pthread_t t) :
    pthread_mutex_trylock t ⟨0, c, o, k⟩
      = (⟨1, uint_incr c, int_of_pthread_t t, k⟩, 0) := by
  have ht : PTHREAD_MUTEX_TYPE ⟨0, c, o, k⟩ = PTHREAD_MUTEX_RECURSIVE_NP := hk
  rw [trylock_recursive_eq t _ ht, recursive_trylock_eq]
  simp [trylock_code, ho]

theorem uint_decr_incr (c : Nat) (hc : c < 2 ^ 32) : uint_decr (uint_incr c) = c := by
  unfold uint_decr uint_incr
  omega

theorem round_trip_by_owner (fuel t : Nat) (l : Int) (c : Nat) (k : Int)
    (hk : int_and k 127 = 1) (h1 : 1 ≤ c) (h2 : c < 2 ^ 32) :
    round_trip fuel t ⟨l, c, int_of_pthread_t t, k⟩ := by
  have hd : uint_decr (uint_incr c) = c := uint_decr_incr c h2
  have hne : uint_decr (uint_incr c) ≠ 0 := by rw [hd]; omega
  have hu : (pthread_mutex_unlock ⟨l, uint_incr c, int_of_pthread_t t, k⟩).1
      = ⟨l, c, int_of_pthread_t t, k⟩ := by
    rw [unlock_recursive_keep l _ _ k hk hne, hd]
  refine ⟨⟨_, lock_by_owner (fuel + 1) t l c k hk, hu⟩, ?_, ?_⟩
  · rw [trylock_by_owner t l c k hk]
  · rw [trylock_by_owner t l c k hk]
    exact hu

theorem round_trip_free_recursive (fuel t : Nat) (k : Int) (hk : int_and k 127 = 1) :
    round_trip fuel t ⟨0, 0, 0, k⟩ := by
  have hd : uint_decr (uint_incr 0) = 0 := by decide
  by_cases h0 : (0 : Int) = int_of_pthread_t t
  · have hu : (pthread_mutex_unlock ⟨0, uint_incr 0, 0, k⟩).1 = ⟨0, 0, 0, k⟩ := by
      rw [unlock_recursive_last 0 _ 0 k hk hd]
    have hl := lock_by_owner (fuel + 1) t 0 0 k hk
    have htl := trylock_by_owner t 0 0 k hk
    rw [← h0] at hl htl
    refine ⟨⟨_, hl, hu⟩, ?_, ?_⟩
    · rw [htl]
    · rw [htl]; exact hu
  · have hu : (pthread_mutex_unlock ⟨1, uint_incr 0, int_of_pthread_t t, k⟩).1
        = ⟨0, 0, 0, k⟩ := by
      rw [unlock_recursive_last 1 _ _ k hk hd]
    refine ⟨⟨_, lock_free_recursive fuel t 0 0 k hk h0, hu⟩, ?_, ?_⟩
    · rw [trylock_free_recursive t 0 0 k hk h0]
    · rw [trylock_free_recursive t 0 0 k hk h0]
      exact hu

theorem round_trip_free_normal (fuel t : Nat) (m : pthread_mutex_t)
    (ht : PTHREAD_MUTEX_TYPE m ≠ PTHREAD_MUTEX_RECURSIVE_NP) (hl : m.__lock = 0) :
    round_trip fuel t m := by
  have hback : rte_spinlock_unlock { m with __lock := 1 } = m := by
    cases m
    simp_all [rte_spinlock_unlock]
  have ht1 : PTHREAD_MUTEX_TYPE ({ m with __lock := 1 } : pthread_mutex_t)
      ≠ PTHREAD_MUTEX_RECURSIVE_NP := ht
  have hu : (pthread_mutex_unlock { m with __lock := 1 }).1 = m := by
    unfold pthread_mutex_unlock
    rw [if_neg ht1]
    exact hback
  refine ⟨⟨{ m with __lock := 1 }, ?_, hu⟩, ?_, ?_⟩
  · rw [lock_normal_eq (fuel + 1) t m ht, rte_spinlock_lock_succ, if_pos hl]
    rfl
  · rw [trylock_normal_eq t m ht]
    simp [rte_spinlock_trylock, trylock_code, hl]
  · rw [trylock_normal_eq t m ht]
    exact hu

/-- C14: for every thread `t`, `pthread_mutex_lock` (which returns) and
likewise `pthread_mutex_trylock` (which succeeds) followed by
`pthread_mutex_unlock` gives back exactly the prior mutex, on every normal
mutex with lock word `0`, on every recursive mutex with lock word, owner and
count `0`, and on every recursive mutex whose owner is the key of `t` and
whose count is at least `1` (and, as an `unsigned int`, below `2 ^ 32`). -/
theorem lock_unlock_round_trip (fuel t : Nat) (m : pthread_mutex_t) :
    (PTHREAD_MUTEX_TYPE m ≠ PTHREAD_MUTEX_RECURSIVE_NP → m.__lock = 0 →
      round_trip fuel t m) ∧
    (PTHREAD_MUTEX_TYPE m = PTHREAD_MUTEX_RECURSIVE_NP →
      m.__lock = 0 → m.__owner = 0 → m.__count = 0 → round_trip fuel t m) ∧
    (PTHREAD_MUTEX_TYPE m = PTHREAD_MUTEX_RECURSIVE_NP →
      m.__owner = int_of_pthread_t t → 1 ≤ m.__count → m.__count < 2 ^ 32 →
      round_trip fuel t m) := by
  refine ⟨round_trip_free_normal fuel t m, ?_, ?_⟩
  · intro ht hl ho hc
    obtain ⟨l, c, o, k⟩ := m
    simp only at hl ho hc
    subst hl ho hc
    exact round_trip_free_recursive fuel t k ht
  · intro ht ho h1 h2
    obtain ⟨l, c, o, k⟩ := m
    simp only at ho h1 h2
    subst ho
    exact round_trip_by_owner fuel t l c k ht h1 h2

/-- Witness for C14: a free normal mutex, a free recursive mutex and a
recursive mutex held at the largest count, each taken by thread `5`. -/
theorem lock_unlock_round_trip_witness :
    round_trip 0 5 ⟨0, 3, 7, 0⟩ ∧
    round_trip 0 5 ⟨0, 0, 0, 1⟩ ∧
    round_trip 0 5 ⟨1, 4294967295, 5, 1⟩ :=
  ⟨(lock_unlock_round_trip 0 5 ⟨0, 3, 7, 0⟩).1 (by decide) rfl,
   (lock_unlock_round_trip 0 5 ⟨0, 0, 0, 1⟩).2.1 (by decide) rfl rfl rfl,
   (lock_unlock_round_trip 0 5 ⟨1, 4294967295, 5, 1⟩).2.2 (by decide) (by decide)
     (by decide) (by decide)⟩

/-! ## Owner identity -/

/-- C15, the code at the failing inputs.  The threads with `pthread_self()`
values `0x7f0000001700` and `0x7f0100001700` differ but have the same key
`5888`: while the first holds a recursive mutex, the try-lock of the second
returns `0` and raises the nest count.  The thread with `pthread_self()`
value `0x7f0100000000` has key `0`: on a free recursive mutex its try-lock
and its lock return `0` with count `1` and leave lock word and owner `0`,
the lock even without any access to the lock word. -/
theorem owner_key_truncated :
    (139637976733440 : Nat) ≠ 139642271700736 ∧
    int_of_pthread_t 139637976733440 = 5888 ∧
    int_of_pthread_t 139642271700736 = 5888 ∧
    pthread_mutex_lock 1 139637976733440 (zero_mutex 1) = some (⟨1, 1, 5888, 1⟩, 0) ∧
    pthread_mutex_trylock 139642271700736 ⟨1, 1, 5888, 1⟩ = (⟨1, 2, 5888, 1⟩, 0) ∧
    (pthread_mutex_trylock 139642271700736 ⟨1, 1, 5888, 1⟩).2 ≠ EBUSY ∧
    (139642271694848 : Nat) ≠ 0 ∧
    int_of_pthread_t 139642271694848 = 0 ∧
    pthread_mutex_trylock 139642271694848 (zero_mutex 1) = (⟨0, 1, 0, 1⟩, 0) ∧
    pthread_mutex_lock 0 139642271694848 (zero_mutex 1) = some (⟨0, 1, 0, 1⟩, 0) := by
  decide

/-! ## Frame of the entry points -/

theorem frame_ok_of_kind (m m1 : pthread_mutex_t) (hk : m1.__kind = m.__kind)
    (h : PTHREAD_MUTEX_TYPE m ≠ PTHREAD_MUTEX_RECURSIVE_NP →
      m1.__owner = m.__owner ∧ m1.__count = m.__count) :
    frame_ok m m1 := by
  refine ⟨hk, ?_, h⟩
  unfold PTHREAD_MUTEX_TYPE
  rw [hk]

theorem frame_lock (fuel t : Nat) (m : pthread_mutex_t) (p : pthread_mutex_t × Int)
    (hp : pthread_mutex_lock fuel t m = some p) : frame_ok m p.1 := by
  unfold pthread_mutex_lock at hp
  by_cases ht : PTHREAD_MUTEX_TYPE m = PTHREAD_MUTEX_RECURSIVE_NP
  · rw [if_pos ht] at hp
    cases hr : rte_spinlock_recursive_lock fuel t m with
    | none => rw [hr] at hp; cases hp
    | some s =>
      rw [hr] at hp
      simp only [Option.map_some', Option.some.injEq] at hp
      subst hp
      apply frame_ok_of_kind
      · rcases recursive_lock_some fuel t m s hr with ⟨_, rfl⟩ | ⟨_, _, rfl⟩ <;> rfl
      · intro hn; exact absurd ht hn
  · rw [if_neg ht] at hp
    cases fuel with
    | zero => rw [rte_spinlock_lock_zero] at hp; cases hp
    | succ n =>
      rw [rte_spinlock_lock_succ] at hp
      by_cases hl : m.__lock = 0
      · rw [if_pos hl] at hp
        simp only [Option.map_some', Option.some.injEq] at hp
        subst hp
        exact frame_ok_of_kind _ _ rfl (fun _ => ⟨rfl, rfl⟩)
      · rw [if_neg hl] at hp; cases hp

theorem frame_trylock (t : Nat) (m : pthread_mutex_t) :
    frame_ok m (pthread_mutex_trylock t m).1 := by
  by_cases ht : PTHREAD_MUTEX_TYPE m = PTHREAD_MUTEX_RECURSIVE_NP
  · rw [trylock_recursive_eq t m ht, recursive_trylock_eq]
    apply frame_ok_of_kind
    · by_cases ho : m.__owner = int_of_pthread_t t
      · simp [ho]
      · by_cases hl : m.__lock = 0 <;> simp [ho, hl]
    · intro hn; exact absurd ht hn
  · rw [trylock_normal_eq t m ht]
    exact frame_ok_of_kind _ _ rfl (fun _ => ⟨rfl, rfl⟩)

theorem frame_unlock (m : pthread_mutex_t) : frame_ok m (pthread_mutex_unlock m).1 := by
  unfold pthread_mutex_unlock
  by_cases ht : PTHREAD_MUTEX_TYPE m = PTHREAD_MUTEX_RECURSIVE_NP
  · rw [if_pos ht]
    apply frame_ok_of_kind
    · unfold rte_spinlock_recursive_unlock rte_spinlock_unlock
      by_cases hc : uint_decr m.__count = 0 <;> simp [hc]
    · intro hn; exact absurd ht hn
  · rw [if_neg ht]
    exact frame_ok_of_kind _ _ rfl (fun _ => ⟨rfl, rfl⟩)

/-- C16: whenever `pthread_mutex_lock`, `__pthread_mutex_lock` or
`__pthread_mutex_cond_lock` returns, and for every call of
`pthread_mutex_trylock` and `pthread_mutex_unlock`, the resulting mutex has
the type tag it had before, so the same routing, and on a normal-type mutex
also the same owner and nest count: only the lock word may differ. -/
theorem entry_points_frame (fuel t : Nat) (m : pthread_mutex_t) :
    (∀ p, pthread_mutex_lock fuel t m = some p → frame_ok m p.1) ∧
    (∀ p, __pthread_mutex_lock fuel t m = some p → frame_ok m p.1) ∧
    (∀ p, __pthread_mutex_cond_lock fuel t m = some p → frame_ok m p.1) ∧
    frame_ok m (pthread_mutex_trylock t m).1 ∧
    frame_ok m (pthread_mutex_unlock m).1 :=
  ⟨frame_lock fuel t m, frame_lock fuel t m, frame_lock fuel t m,
   frame_trylock t m, frame_unlock m⟩

/-- Witness for C16: lock calls that return, on a free normal mutex with
owner and count set and on a free recursive mutex. -/
theorem entry_points_frame_witness :
    pthread_mutex_lock 1 5 ⟨0, 3, 7, 0⟩ = some (⟨1, 3, 7, 0⟩, 0) ∧
    frame_ok ⟨0, 3, 7, 0⟩ ⟨1, 3, 7, 0⟩ ∧
    __pthread_mutex_cond_lock 1 5 ⟨0, 0, 0, 129⟩ = some (⟨1, 1, 5, 129⟩, 0) ∧
    frame_ok ⟨0, 0, 0, 129⟩ ⟨1, 1, 5, 129⟩ :=
  ⟨by decide,
   (entry_points_frame 1 5 ⟨0, 3, 7, 0⟩).1 (⟨1, 3, 7, 0⟩, 0) (by decide),
   by decide,
   (entry_points_frame 1 5 ⟨0, 0, 0, 129⟩).2.2.1 (⟨1, 1, 5, 129⟩, 0) (by decide)⟩

end PthreadMutexHook
